import Mathlib

/-!
# ChecklistApp: the configuration form of `frontend/app.js`

A shallow embedding of the configuration generator of `frontend/app.js`
(`defaultConfig`, `populateForm`, `normalisePath`, `generateConfig`,
`updateDashboard`, `updateCommands`) together with the ECMAScript primitives
these functions call (`String.prototype.trim`, `split`, `replace`, `join`,
`Number(...)`, `Math.max`, number-to-string conversion, property lookup on an
object literal).

Modelling conventions.

* A JavaScript string is a Lean `String`.  Every string operation used by the
  program (`trim`, `split(",")`, `replace(/\\/g, "/")`, `join(", ")`, the
  emptiness test of `||`) inspects only characters of the Basic Multilingual
  Plane that are not surrogates, so working with code points instead of UTF-16
  code units does not change any result.
* A JavaScript number is a `JSNumber`: `NaN`, the two infinities, or a finite
  value carried as the exact rational it denotes.  The two zeros are
  identified; no operation of the program distinguishes them.  Every
  conversion and arithmetic operation rounds to binary64 (`roundDouble`).
  `Number(...)` rounds the exact value of a decimal literal, as the browsers
  do; `ToString` picks the shortest decimal that converts back, and among
  those the closest one.
* The form is a record of the twelve `value` strings the program reads and
  writes.
-/

namespace ChecklistApp

/-! ## Strings -/

/-- ECMAScript `WhiteSpace` and `LineTerminator` code points: the characters
removed by `String.prototype.trim` and skipped around a numeric string. -/
def isWhiteSpace (c : Char) : Bool :=
  c.toNat = 0x09 || c.toNat = 0x0A || c.toNat = 0x0B || c.toNat = 0x0C || c.toNat = 0x0D ||
  c.toNat = 0x20 || c.toNat = 0xA0 || c.toNat = 0x1680 ||
  (0x2000 ≤ c.toNat && c.toNat ≤ 0x200A) ||
  c.toNat = 0x2028 || c.toNat = 0x2029 || c.toNat = 0x202F || c.toNat = 0x205F ||
  c.toNat = 0x3000 || c.toNat = 0xFEFF

/-- Characters of `value.trim()`: leading and trailing white space removed. -/
def trimChars (l : List Char) : List Char :=
  (l.dropWhile isWhiteSpace).rdropWhile isWhiteSpace

/-- The method `String.prototype.trim`. -/
def trim (s : String) : String := ⟨trimChars s.data⟩

/-- The call `value.split(",")`: the pieces between the commas (always at least one). -/
def split (s : String) : List String := (s.data.splitOn ',').map String.mk

/-- The call `value.replace(/\\/g, "/")`: every backslash becomes a forward slash. -/
def replaceBackslashes (s : String) : String :=
  ⟨s.data.map (fun c => if c = '\\' then '/' else c)⟩

/-- The call `array.join(sep)` for an array of strings. -/
def join (sep : String) (l : List String) : String :=
  ⟨sep.data.intercalate (l.map String.data)⟩

/-- The expression `a || b` on strings: the empty string is the only falsy string. -/
def orElse (a b : String) : String := if a = "" then b else a

/-! ## Numbers -/

/-- Values of the ECMAScript Number type, with `+0` and `-0` identified. -/
inductive JSNumber where
  | nan
  | negInf
  | posInf
  | fin (q : ℚ)
  deriving DecidableEq

namespace JSNumber

/-- The operation `ToBoolean` on numbers: `NaN` and zero are falsy. -/
def truthy : JSNumber → Bool
  | nan => false
  | negInf => true
  | posInf => true
  | fin q => decide (q ≠ 0)

/-- The expression `a || b` on numbers. -/
def orElse (a b : JSNumber) : JSNumber := if a.truthy then a else b

/-- The relational operator `a < b`. -/
def lt : JSNumber → JSNumber → Bool
  | nan, _ => false
  | _, nan => false
  | _, negInf => false
  | negInf, _ => true
  | posInf, _ => false
  | fin _, posInf => true
  | fin a, fin b => decide (a < b)

/-- The relational operator `a <= b`. -/
def le : JSNumber → JSNumber → Bool
  | nan, _ => false
  | _, nan => false
  | negInf, _ => true
  | _, negInf => false
  | _, posInf => true
  | posInf, _ => false
  | fin a, fin b => decide (a ≤ b)

/-- Binary `Math.max(a, b)`: `NaN` if either argument is, else the larger. -/
def max (a b : JSNumber) : JSNumber :=
  match a, b with
  | nan, _ => nan
  | _, nan => nan
  | posInf, _ => posInf
  | _, posInf => posInf
  | negInf, y => y
  | x, negInf => x
  | fin x, fin y => fin (if x ≤ y then y else x)

/-- The function `Number.isInteger`. -/
def isInteger : JSNumber → Bool
  | fin q => decide (q.den = 1)
  | _ => false

end JSNumber

/-- Number of halvings needed to bring `n` below 2, with explicit fuel. -/
def log2Fuel : Nat → Nat → Nat
  | 0, _ => 0
  | fuel + 1, n => if n < 2 then 0 else log2Fuel fuel (n / 2) + 1

/-- Floor of the binary logarithm of a positive natural number. -/
def natLog2 (n : Nat) : Nat := log2Fuel n n

/-- The rational `2 ^ e` for an integer exponent. -/
def pow2 (e : Int) : ℚ :=
  if 0 ≤ e then ((2 ^ e.toNat : Nat) : ℚ) else 1 / ((2 ^ (-e).toNat : Nat) : ℚ)

/-- The rational `10 ^ e` for an integer exponent. -/
def pow10 (e : Int) : ℚ :=
  if 0 ≤ e then ((10 ^ e.toNat : Nat) : ℚ) else 1 / ((10 ^ (-e).toNat : Nat) : ℚ)

/-- Floor of the binary logarithm of a positive rational. -/
def floorLog2 (q : ℚ) : Int :=
  let d : Int := (natLog2 q.num.natAbs : Int) - (natLog2 q.den : Int)
  if pow2 d ≤ q then d else d - 1

/-- Round a non-negative rational to the nearest natural number, ties to even. -/
def roundHalfEven (r : ℚ) : Nat :=
  let f : Nat := r.num.natAbs / r.den
  let rest : ℚ := r - (f : ℚ)
  if rest < 1 / 2 then f
  else if 1 / 2 < rest then f + 1
  else if f % 2 = 0 then f else f + 1

/-- The Number value for a mathematical value: IEEE 754 binary64
round-to-nearest, ties-to-even, with overflow to the infinities. -/
def roundDouble (q : ℚ) : JSNumber :=
  if q = 0 then JSNumber.fin 0
  else
    let a : ℚ := |q|
    let e : Int := Max.max (floorLog2 a) (-1022)
    let ulp : ℚ := pow2 (e - 52)
    let r : ℚ := (roundHalfEven (a / ulp) : ℚ) * ulp
    if pow2 1024 ≤ r then (if 0 < q then JSNumber.posInf else JSNumber.negInf)
    else JSNumber.fin (if 0 < q then r else -r)

/-- The multiplicative operator `a * b` on numbers. -/
def JSNumber.mul : JSNumber → JSNumber → JSNumber
  | .nan, _ => .nan
  | _, .nan => .nan
  | .fin a, .fin b => roundDouble (a * b)
  | .fin a, .posInf => if a = 0 then .nan else if 0 < a then .posInf else .negInf
  | .fin a, .negInf => if a = 0 then .nan else if 0 < a then .negInf else .posInf
  | .posInf, .fin b => if b = 0 then .nan else if 0 < b then .posInf else .negInf
  | .negInf, .fin b => if b = 0 then .nan else if 0 < b then .negInf else .posInf
  | .posInf, .posInf => .posInf
  | .negInf, .negInf => .posInf
  | .posInf, .negInf => .negInf
  | .negInf, .posInf => .negInf

/-- Decimal digit test. -/
def isDigit (c : Char) : Bool := decide (48 ≤ c.toNat) && decide (c.toNat ≤ 57)

/-- Value of a run of decimal digits, most significant first. -/
def digitsValue (ds : List Char) : Nat :=
  ds.foldl (fun acc c => 10 * acc + (c.toNat - 48)) 0

/-- Value of one digit of a binary, octal or hexadecimal literal. -/
def radixDigit (radix : Nat) (c : Char) : Option Nat :=
  let v : Option Nat :=
    if 48 ≤ c.toNat ∧ c.toNat ≤ 57 then some (c.toNat - 48)
    else if 97 ≤ c.toNat ∧ c.toNat ≤ 102 then some (c.toNat - 87)
    else if 65 ≤ c.toNat ∧ c.toNat ≤ 70 then some (c.toNat - 55)
    else none
  v.bind (fun d => if d < radix then some d else none)

/-- Value of a non-empty run of digits in the given radix. -/
def radixValue (radix : Nat) : List Char → Option Nat
  | [] => none
  | c :: cs =>
    (c :: cs).foldl
      (fun acc d => acc.bind (fun a => (radixDigit radix d).map (fun v => radix * a + v)))
      (some 0)

/-- The optional `ExponentPart`: the text after the mantissa must be empty or
`e`/`E`, an optional sign and at least one digit. -/
def parseExponent : List Char → Option Int
  | [] => some 0
  | c :: rest =>
    if c = 'e' ∨ c = 'E' then
      match rest with
      | '+' :: ds => if ds ≠ [] ∧ ds.all isDigit then some (digitsValue ds : Int) else none
      | '-' :: ds => if ds ≠ [] ∧ ds.all isDigit then some (-(digitsValue ds : Int)) else none
      | ds => if ds ≠ [] ∧ ds.all isDigit then some (digitsValue ds : Int) else none
    else none

/-- Mathematical value of a `StrUnsignedDecimalLiteral` other than `Infinity`:
`digits`, `digits.`, `digits.digits`, `.digits`, each with an optional
exponent part. -/
def parseUnsignedDecimal (l : List Char) : Option ℚ :=
  let ip := l.takeWhile isDigit
  let r1 := l.dropWhile isDigit
  match r1 with
  | '.' :: t =>
    let fp := t.takeWhile isDigit
    let r2 := t.dropWhile isDigit
    if ip = [] ∧ fp = [] then none
    else (parseExponent r2).map
      (fun ex => (digitsValue (ip ++ fp) : ℚ) * pow10 (ex - (fp.length : Int)))
  | _ =>
    if ip = [] then none
    else (parseExponent r1).map (fun ex => (digitsValue ip : ℚ) * pow10 ex)

/-- Number value of a `StrDecimalLiteral`: optional sign, then `Infinity` or an
unsigned decimal literal. -/
def parseDecimal (l : List Char) : JSNumber :=
  let unsigned (neg : Bool) (u : List Char) : JSNumber :=
    if u = "Infinity".data then (if neg then JSNumber.negInf else JSNumber.posInf)
    else match parseUnsignedDecimal u with
      | some q => roundDouble (if neg then -q else q)
      | none => JSNumber.nan
  match l with
  | '+' :: u => unsigned false u
  | '-' :: u => unsigned true u
  | u => unsigned false u

/-- The abstract operation `StringToNumber`, which is `Number(value)` on a
string: white space is trimmed, the empty string is `0`, then a signed decimal
literal or an unsigned binary, octal or hexadecimal integer literal; anything
else is `NaN`. -/
def Number (s : String) : JSNumber :=
  let nonDecimal (radix : Nat) (ds : List Char) : JSNumber :=
    match radixValue radix ds with
    | some n => roundDouble (n : ℚ)
    | none => JSNumber.nan
  match trimChars s.data with
  | [] => JSNumber.fin 0
  | '0' :: 'x' :: ds => nonDecimal 16 ds
  | '0' :: 'X' :: ds => nonDecimal 16 ds
  | '0' :: 'o' :: ds => nonDecimal 8 ds
  | '0' :: 'O' :: ds => nonDecimal 8 ds
  | '0' :: 'b' :: ds => nonDecimal 2 ds
  | '0' :: 'B' :: ds => nonDecimal 2 ds
  | l => parseDecimal l

/-- Number of divisions by ten needed to bring `n` below 10, with explicit fuel. -/
def log10Fuel : Nat → Nat → Nat
  | 0, _ => 0
  | fuel + 1, n => if n < 10 then 0 else log10Fuel fuel (n / 10) + 1

/-- Floor of the decimal logarithm of a positive natural number. -/
def natLog10 (n : Nat) : Nat := log10Fuel n n

/-- Floor of the decimal logarithm of a positive rational. -/
def floorLog10 (q : ℚ) : Int :=
  let d : Int := (natLog10 q.num.natAbs : Int) - (natLog10 q.den : Int)
  if pow10 d ≤ q then d else d - 1

/-- The `k` low-order decimal digits of `s`, most significant first. -/
def digitsOfWidth : Nat → Nat → List Char
  | 0, _ => []
  | k + 1, s => digitsOfWidth k (s / 10) ++ [Nat.digitChar (s % 10)]

/-- Decimal representation of a natural number, without leading zeros. -/
def natDigits (n : Nat) : List Char := digitsOfWidth (natLog10 n + 1) n

/-- The digits `s` and the position `n` of the decimal point for the value
`c × 10^(n0-k)`: a `c` that reached `10^k` is written with one digit more before
the point. -/
def normalise (n0 : Int) (k c : Nat) : Nat × Int :=
  if c = 10 ^ k then (10 ^ (k - 1), n0 + 1) else (c, n0)

/-- Whether `c × 10^(n0-k)` has exactly `k` digits and converts back to `x`:
`10^(k-1) ≤ s < 10^k` and `s × 10^(n-k)` rounds to `x`. -/
def converts (x : ℚ) (n0 : Int) (k c : Nat) : Bool :=
  decide (10 ^ (k - 1) ≤ (normalise n0 k c).1) && decide ((normalise n0 k c).1 < 10 ^ k) &&
    decide (roundDouble ((c : ℚ) * pow10 (n0 - (k : Int))) = JSNumber.fin x)

/-- Choice between the `k`-digit decimals `lo × 10^(n0-k)` and `hi × 10^(n0-k)`
on either side of `x`: of two that convert back to `x` the closer one is taken,
and the even one on a tie. -/
def nearest (x : ℚ) (n0 : Int) (k lo hi : Nat) : Option (Nat × Int) :=
  let scale : ℚ := pow10 (n0 - (k : Int))
  let preferHi : Bool :=
    decide ((hi : ℚ) * scale - x < x - (lo : ℚ) * scale) ||
      (decide ((hi : ℚ) * scale - x = x - (lo : ℚ) * scale) && decide (hi % 2 = 0))
  if converts x n0 k hi && (!converts x n0 k lo || preferHi) then some (normalise n0 k hi)
  else if converts x n0 k lo then some (normalise n0 k lo)
  else none

/-- The `k`-digit decimal nearest to the positive value `x` that converts back
to `x`, if there is one.  Only the two `k`-digit decimals around `x` can be
nearest.  `n0` is the decimal exponent of `x`. -/
def candidate (x : ℚ) (n0 : Int) (k : Nat) : Option (Nat × Int) :=
  let r : ℚ := x / pow10 (n0 - (k : Int))
  let lo : Nat := r.num.natAbs / r.den
  nearest x n0 k lo (if (lo : ℚ) = r then lo else lo + 1)

/-- Search for the shortest decimal `(s, n, k)` that converts back to `x`,
trying `k`, `k + 1`, … for at most `fuel` lengths. -/
def shortestFrom (x : ℚ) (n0 : Int) : Nat → Nat → Nat × Int × Nat
  | 0, k => ((x / pow10 (n0 - (k : Int))).num.natAbs / (x / pow10 (n0 - (k : Int))).den, n0, k)
  | fuel + 1, k =>
    match candidate x n0 k with
    | some (s, n) => (s, n, k)
    | none => shortestFrom x n0 fuel (k + 1)

/-- The integers `s`, `n`, `k` of `Number::toString` for a positive finite
value: `k` is as small as possible.  A binary64 value with denominator `2^j`
is reproduced exactly by `n0 + j` digits, which bounds the search. -/
def shortestDecimal (x : ℚ) : Nat × Int × Nat :=
  let n0 : Int := floorLog10 x + 1
  shortestFrom x n0 (x.den + n0.natAbs) 1

/-- The text of `Number::toString` (radix 10) for the decimal `s × 10^(n-k)`. -/
def formatDecimal (s : Nat) (n : Int) (k : Nat) : List Char :=
  let ds := digitsOfWidth k s
  if (k : Int) ≤ n ∧ n ≤ 21 then ds ++ List.replicate (n.toNat - k) '0'
  else if 0 < n ∧ n ≤ 21 then ds.take n.toNat ++ '.' :: ds.drop n.toNat
  else if -6 < n ∧ n ≤ 0 then '0' :: '.' :: (List.replicate (-n).toNat '0' ++ ds)
  else
    let e : Int := n - 1
    let sign : Char := if e < 0 then '-' else '+'
    if k = 1 then ds ++ 'e' :: sign :: natDigits e.natAbs
    else ds.take 1 ++ '.' :: (ds.drop 1 ++ 'e' :: sign :: natDigits e.natAbs)

/-- The text of `Number::toString` for a positive finite value. -/
def positiveToString (x : ℚ) : List Char :=
  formatDecimal (shortestDecimal x).1 (shortestDecimal x).2.1 (shortestDecimal x).2.2

/-- The operation `ToString` applied to a number (radix 10), as performed by a template
literal and by an assignment to `value` or `textContent`. -/
def JSNumber.toString : JSNumber → String
  | .nan => "NaN"
  | .posInf => "Infinity"
  | .negInf => "-Infinity"
  | .fin q =>
    if q = 0 then "0"
    else if q < 0 then ⟨'-' :: positiveToString (-q)⟩
    else ⟨positiveToString q⟩

/-! ## The program -/

/-- The `value` strings of the controls of `config-form`.  A control is a cell
holding a string: it returns the string last assigned to it, whatever the
kind of control the page declares for it. -/
structure FormState where
  trending_region : String
  videos_per_day : String
  output_dir : String
  assets_dir : String
  youtube_category_id : String
  tags : String
  youtube_client_secrets_file : String
  youtube_token_file : String
  youtube_privacy_status : String
  video_title_template : String
  video_description_template : String
  background_music_file : String
  deriving DecidableEq

/-- A configuration object; `background_music_file = none` is JavaScript `null`. -/
structure Config where
  trending_region : String
  videos_per_day : JSNumber
  output_dir : String
  assets_dir : String
  youtube_category_id : String
  tags : List String
  video_title_template : String
  video_description_template : String
  youtube_privacy_status : String
  youtube_client_secrets_file : String
  youtube_token_file : String
  background_music_file : Option String
  deriving DecidableEq

/-- The constant `defaultConfig`. -/
def defaultConfig : Config where
  trending_region := "united_states"
  videos_per_day := JSNumber.fin 4
  output_dir := "output"
  assets_dir := "assets"
  youtube_category_id := "23"
  tags := ["shorts", "cartoon", "comedy"]
  video_title_template := "\x7btopic\x7d - Cartoon Comedy Short"
  video_description_template := "A quick cartoon short riffing on \x7btopic\x7d. Script: \x7bscript\x7d"
  youtube_privacy_status := "private"
  youtube_client_secrets_file := "credentials/client_secret.json"
  youtube_token_file := "credentials/token.json"
  background_music_file := some ""

/-- The function `populateForm(config)`: every control of the form is overwritten.  The
number is converted with `ToString`, the tags are joined with a comma and a
space, and `null` assigned to a `value` becomes the empty string. -/
def populateForm (config : Config) : FormState where
  trending_region := config.trending_region
  videos_per_day := config.videos_per_day.toString
  output_dir := config.output_dir
  assets_dir := config.assets_dir
  youtube_category_id := config.youtube_category_id
  tags := join ", " config.tags
  youtube_client_secrets_file := config.youtube_client_secrets_file
  youtube_token_file := config.youtube_token_file
  youtube_privacy_status := config.youtube_privacy_status
  video_title_template := config.video_title_template
  video_description_template := config.video_description_template
  background_music_file := config.background_music_file.getD ""

/-- The function `normalisePath(value)`: `value.trim().replace(/\\/g, "/")`. -/
def normalisePath (value : String) : String := replaceBackslashes (trim value)

/-- The function `generateConfig()`, reading the form `form`. -/
def generateConfig (form : FormState) : Config :=
  let videosPerDay : JSNumber :=
    JSNumber.max (JSNumber.fin 1) ((Number form.videos_per_day).orElse defaultConfig.videos_per_day)
  let tags : List String := ((split form.tags).map trim).filter (fun tag => tag ≠ "")
  { trending_region := orElse (trim form.trending_region) defaultConfig.trending_region
    videos_per_day := videosPerDay
    output_dir := orElse (normalisePath form.output_dir) defaultConfig.output_dir
    assets_dir := orElse (normalisePath form.assets_dir) defaultConfig.assets_dir
    youtube_category_id := orElse (trim form.youtube_category_id) defaultConfig.youtube_category_id
    tags := if tags.length ≠ 0 then tags else defaultConfig.tags
    video_title_template :=
      orElse (trim form.video_title_template) defaultConfig.video_title_template
    video_description_template :=
      orElse (trim form.video_description_template) defaultConfig.video_description_template
    youtube_privacy_status :=
      orElse form.youtube_privacy_status defaultConfig.youtube_privacy_status
    youtube_client_secrets_file :=
      orElse (normalisePath form.youtube_client_secrets_file)
        defaultConfig.youtube_client_secrets_file
    youtube_token_file :=
      orElse (normalisePath form.youtube_token_file) defaultConfig.youtube_token_file
    background_music_file :=
      if trim form.background_music_file ≠ "" then
        some (normalisePath form.background_music_file)
      else none }

/-- What a read of `statusMap[key]` yields: an own property of the object
literal (a text), a member inherited from `Object.prototype` (a function, or
the prototype object for `__proto__`), or `undefined`. -/
inductive Property where
  | text (s : String)
  | inherited (name : String)
  | undefined
  deriving DecidableEq

/-- Property names every object literal inherits from `Object.prototype`. -/
def objectPrototypeKeys : List String :=
  ["constructor", "hasOwnProperty", "isPrototypeOf", "propertyIsEnumerable",
   "toLocaleString", "toString", "valueOf", "__proto__",
   "__defineGetter__", "__defineSetter__", "__lookupGetter__", "__lookupSetter__"]

/-- The read `statusMap[key]` of the object literal in `updateDashboard`. -/
def statusMap (key : String) : Property :=
  if key = "private" then Property.text "Uploads saved as Private"
  else if key = "unlisted" then Property.text "Uploads shared as Unlisted"
  else if key = "public" then Property.text "Uploads published instantly"
  else if key ∈ objectPrototypeKeys then Property.inherited key
  else Property.undefined

/-- The expression `statusMap[status] || "Ready for launch"`: only `undefined` (and an empty
text) is falsy; an inherited member is an object and is kept. -/
def statusValue (status : String) : Property :=
  match statusMap status with
  | Property.text s => if s = "" then Property.text "Ready for launch" else Property.text s
  | Property.inherited name => Property.inherited name
  | Property.undefined => Property.text "Ready for launch"

/-- The four elements written by `updateDashboard`; `none` is an element that
is missing from the page, `some v` one whose `textContent` was set from `v`. -/
structure Dashboard where
  videosQueued : Option String
  topicsAnalysed : Option String
  uploadsComplete : Option String
  statusPill : Option Property
  deriving DecidableEq

/-- The function `updateDashboard(config)`; each flag tells whether the element exists. -/
def updateDashboard (config : Config)
    (hasVideosQueued hasTopicsAnalysed hasUploadsComplete hasStatusPill : Bool) : Dashboard where
  videosQueued := if hasVideosQueued then some config.videos_per_day.toString else none
  topicsAnalysed :=
    if hasTopicsAnalysed then
      some (JSNumber.max (config.videos_per_day.mul (JSNumber.fin 3)) (JSNumber.fin 12)).toString
    else none
  uploadsComplete := if hasUploadsComplete then some "0" else none
  statusPill := if hasStatusPill then some (statusValue config.youtube_privacy_status) else none

/-- The texts written by `updateCommands` into the three command elements. -/
structure Commands where
  primary : String
  dryRun : String
  topic : String
  deriving DecidableEq

/-- The constant `baseCommand` of `updateCommands`. -/
def baseCommand : String := "python -m automation.main --config config.json"

/-- The function `updateCommands(config)`. -/
def updateCommands (config : Config) : Commands where
  primary :=
    if config.videos_per_day ≠ defaultConfig.videos_per_day then
      baseCommand ++ " --count " ++ config.videos_per_day.toString
    else baseCommand
  dryRun := baseCommand ++ " --dry-run"
  topic := baseCommand ++ " --topic \"Space Tourism\""


/-! ## Auxiliary definitions for the statements -/

/-- A list of characters without white space at either end. -/
def Trimmed (l : List Char) : Prop :=
  ∀ h : l ≠ [], isWhiteSpace (l.head h) = false ∧ isWhiteSpace (l.getLast h) = false

instance (l : List Char) : Decidable (Trimmed l) :=
  if h : l = [] then isTrue (fun hn => absurd h hn)
  else decidable_of_iff
    (isWhiteSpace (l.head h) = false ∧ isWhiteSpace (l.getLast h) = false)
    ⟨fun hp _ => hp, fun hp => hp h⟩

/-- The character map of `replaceBackslashes`. -/
def slash (c : Char) : Char := if c = '\\' then '/' else c

/-- The form with every control empty. -/
def emptyForm : FormState where
  trending_region := ""
  videos_per_day := ""
  output_dir := ""
  assets_dir := ""
  youtube_category_id := ""
  tags := ""
  youtube_client_secrets_file := ""
  youtube_token_file := ""
  youtube_privacy_status := ""
  video_title_template := ""
  video_description_template := ""
  background_music_file := ""

/-- The finite values of the binary64 format: at most 53 significant bits
above the minimum exponent, below `2^1024`. -/
def IsBinary64 (x : ℚ) : Prop :=
  ∃ (m : Nat) (e : Int), m ≤ 2 ^ 53 ∧ -1022 ≤ e ∧ |x| = (m : ℚ) * pow2 (e - 52) ∧
    |x| < pow2 1024

/-- The magnitude `roundDouble` produces for a non-zero `q` before the overflow
test: the nearest multiple of the unit in the last place. -/
def roundedMagnitude (q : ℚ) : ℚ :=
  (roundHalfEven (|q| / pow2 (Max.max (floorLog2 |q|) (-1022) - 52)) : ℚ) *
    pow2 (Max.max (floorLog2 |q|) (-1022) - 52)

/-- The two shapes of an exponent part produced by the formatter. -/
def IsExponentText (ex : List Char) (E : Int) : Prop :=
  (ex = [] ∧ E = 0) ∨
  (∃ es : List Char, es ≠ [] ∧ (∀ c ∈ es, isDigit c = true) ∧
    ((ex = 'e' :: '+' :: es ∧ E = (digitsValue es : Int)) ∨
     (ex = 'e' :: '-' :: es ∧ E = -(digitsValue es : Int))))


/-! ## Lemmas on strings -/

theorem mk_eq_empty_iff (l : List Char) : String.mk l = "" ↔ l = [] := by
  constructor
  · intro h
    have := congrArg String.data h
    simpa using this
  · intro h
    subst h
    rfl

theorem data_eq_nil_iff (s : String) : s.data = [] ↔ s = "" := by
  cases s with
  | mk l => simpa using (mk_eq_empty_iff l).symm

theorem orElse_ne_empty (a b : String) (hb : b ≠ "") : orElse a b ≠ "" := by
  unfold orElse
  split_ifs with h
  · exact hb
  · exact h

theorem orElse_self_of_ne (a b : String) (ha : a ≠ "") : orElse a b = a := by
  simp [orElse, ha]

theorem dropWhile_of_head (l : List Char) (h : ∀ hl : l ≠ [], isWhiteSpace (l.head hl) = false) :
    l.dropWhile isWhiteSpace = l := by
  cases l with
  | nil => rfl
  | cons a t =>
    have := h (by simp)
    simp only [List.head_cons] at this
    simp [List.dropWhile, this]

theorem rdropWhile_of_last (l : List Char)
    (h : ∀ hl : l ≠ [], isWhiteSpace (l.getLast hl) = false) :
    l.rdropWhile isWhiteSpace = l := by
  rw [List.rdropWhile_eq_self_iff]
  intro hl
  simp [h hl]

theorem trimChars_of_trimmed (l : List Char) (h : Trimmed l) : trimChars l = l := by
  unfold trimChars
  rw [dropWhile_of_head l (fun hl => (h hl).1), rdropWhile_of_last l (fun hl => (h hl).2)]

theorem head_dropWhile_ws (l : List Char) (h : l.dropWhile isWhiteSpace ≠ []) :
    isWhiteSpace ((l.dropWhile isWhiteSpace).head h) = false := by
  have := List.head_dropWhile_not isWhiteSpace l h
  simpa using this

theorem head_of_initial {x y : List Char} (hp : x <+: y) (hx : x ≠ []) (hy : y ≠ []) :
    y.head hy = x.head hx := by
  obtain ⟨t, rfl⟩ := hp
  cases x with
  | nil => exact absurd rfl hx
  | cons a u => simp

theorem rdropWhile_append_rtakeWhile (p : Char → Bool) (l : List Char) :
    l.rdropWhile p ++ l.rtakeWhile p = l := by
  unfold List.rdropWhile List.rtakeWhile
  rw [← List.reverse_append, List.takeWhile_append_dropWhile, List.reverse_reverse]

theorem trimChars_initial (l : List Char) : trimChars l <+: l.dropWhile isWhiteSpace := by
  unfold trimChars
  exact List.rdropWhile_prefix _ _

theorem trimmed_trimChars (l : List Char) : Trimmed (trimChars l) := by
  intro h
  constructor
  · obtain ⟨t, ht⟩ := trimChars_initial l
    have hd : l.dropWhile isWhiteSpace ≠ [] := by
      intro h0
      rw [h0] at ht
      simp at ht
      exact h ht.1
    have h1 := head_dropWhile_ws l hd
    rw [← head_of_initial ⟨t, ht⟩ h hd]
    exact h1
  · have := List.rdropWhile_last_not (p := isWhiteSpace) (l := l.dropWhile isWhiteSpace) h
    simpa [trimChars] using this

theorem trimChars_idem (l : List Char) : trimChars (trimChars l) = trimChars l :=
  trimChars_of_trimmed _ (trimmed_trimChars l)

theorem trimChars_eq_nil_iff (l : List Char) :
    trimChars l = [] ↔ ∀ c ∈ l, isWhiteSpace c = true := by
  unfold trimChars
  rw [List.rdropWhile_eq_nil_iff]
  constructor
  · intro h
    have : l.dropWhile isWhiteSpace = [] := by
      by_contra hne
      have h1 := head_dropWhile_ws l hne
      have h2 := h _ (List.head_mem hne)
      rw [h1] at h2
      exact Bool.false_ne_true h2
    exact List.dropWhile_eq_nil_iff.mp this
  · intro h
    have : l.dropWhile isWhiteSpace = [] := List.dropWhile_eq_nil_iff.mpr h
    rw [this]
    simp

/-- Decomposition of a string around its trimmed part. -/
theorem trimChars_decompose (l : List Char) :
    ∃ a b : List Char, l = a ++ trimChars l ++ b ∧
      (∀ c ∈ a, isWhiteSpace c = true) ∧ (∀ c ∈ b, isWhiteSpace c = true) := by
  refine ⟨l.takeWhile isWhiteSpace, (l.dropWhile isWhiteSpace).rtakeWhile isWhiteSpace, ?_, ?_, ?_⟩
  · unfold trimChars
    rw [List.append_assoc, rdropWhile_append_rtakeWhile, List.takeWhile_append_dropWhile]
  · intro c hc
    exact (List.mem_takeWhile_imp hc)
  · intro c hc
    exact List.mem_rtakeWhile_imp hc

/-- White space around a trimmed text is exactly what `trim` removes. -/
theorem trimChars_sandwich (a t b : List Char) (ha : ∀ c ∈ a, isWhiteSpace c = true)
    (hb : ∀ c ∈ b, isWhiteSpace c = true) (ht : Trimmed t) (hne : t ≠ []) :
    trimChars (a ++ t ++ b) = t := by
  unfold trimChars
  have h1 : (a ++ t ++ b).dropWhile isWhiteSpace = t ++ b := by
    rw [List.append_assoc, List.dropWhile_append_of_pos ha]
    apply dropWhile_of_head
    intro hl
    cases t with
    | nil => exact absurd rfl hne
    | cons x u => simpa using (ht (by simp)).1
  rw [h1]
  unfold List.rdropWhile
  rw [List.reverse_append, List.dropWhile_append_of_pos (by simpa using hb)]
  have h2 : t.reverse.dropWhile isWhiteSpace = t.reverse := by
    apply dropWhile_of_head
    intro hl
    have := (ht hne).2
    simpa [List.head_reverse] using this
  rw [h2, List.reverse_reverse]

theorem trim_data (s : String) : (trim s).data = trimChars s.data := rfl

theorem trim_eq_empty_iff (s : String) :
    trim s = "" ↔ ∀ c ∈ s.data, isWhiteSpace c = true := by
  unfold trim
  rw [mk_eq_empty_iff, trimChars_eq_nil_iff]

theorem trim_trim (s : String) : trim (trim s) = trim s := by
  unfold trim
  simp [trimChars_idem]

theorem isWhiteSpace_slash (c : Char) : isWhiteSpace (slash c) = isWhiteSpace c := by
  unfold slash
  split_ifs with h
  · subst h
    decide
  · rfl

theorem slash_slash (c : Char) : slash (slash c) = slash c := by
  unfold slash
  by_cases h : c = '\\' <;> simp [h]

theorem slash_ne_backslash (c : Char) : slash c ≠ '\\' := by
  unfold slash
  split_ifs with h
  · decide
  · exact h

theorem trimChars_map_slash (l : List Char) :
    trimChars (l.map slash) = (trimChars l).map slash := by
  have hcomp : (isWhiteSpace ∘ slash) = isWhiteSpace := by
    funext c
    exact isWhiteSpace_slash c
  unfold trimChars List.rdropWhile
  rw [List.dropWhile_map, hcomp, ← List.map_reverse, List.dropWhile_map, hcomp, List.map_reverse]

theorem normalisePath_data (v : String) :
    (normalisePath v).data = (trimChars v.data).map slash := rfl

theorem normalisePath_idem (v : String) : normalisePath (normalisePath v) = normalisePath v := by
  have h : (normalisePath (normalisePath v)).data = (normalisePath v).data := by
    rw [normalisePath_data, normalisePath_data, trimChars_map_slash, trimChars_idem,
      List.map_map]
    apply List.map_congr_left
    intro c _
    exact slash_slash c
  exact String.ext h

theorem trim_normalisePath (v : String) : trim (normalisePath v) = normalisePath v := by
  have h : (trim (normalisePath v)).data = (normalisePath v).data := by
    rw [trim_data, normalisePath_data, trimChars_map_slash, trimChars_idem]
  exact String.ext h

theorem normalisePath_eq_empty_iff (v : String) : normalisePath v = "" ↔ trim v = "" := by
  rw [← data_eq_nil_iff, ← data_eq_nil_iff, normalisePath_data, trim_data]
  simp

theorem mem_trimChars {c : Char} {l : List Char} (h : c ∈ trimChars l) : c ∈ l := by
  have h1 : c ∈ l.dropWhile isWhiteSpace := (trimChars_initial l).subset h
  exact (List.dropWhile_suffix isWhiteSpace).subset h1

theorem splitOnP_no_sep (p : Char → Bool) (l : List Char) :
    ∀ piece ∈ l.splitOnP p, ∀ c ∈ piece, p c = false := by
  induction l with
  | nil =>
    intro piece hp c hc
    simp [List.splitOnP_nil] at hp
    subst hp
    simp at hc
  | cons a t ih =>
    intro piece hp c hc
    rw [List.splitOnP_cons] at hp
    by_cases ha : p a = true
    · rw [if_pos ha] at hp
      rcases List.mem_cons.mp hp with h | h
      · subst h
        simp at hc
      · exact ih piece h c hc
    · rw [if_neg ha] at hp
      cases hs : List.splitOnP p t with
      | nil => exact absurd hs (List.splitOnP_ne_nil _ _)
      | cons x xs =>
        rw [hs] at hp ih
        simp only [List.modifyHead_cons, List.mem_cons] at hp
        rcases hp with h | h
        · subst h
          rcases List.mem_cons.mp hc with h' | h'
          · subst h'
            simpa using ha
          · exact ih x (by simp) c h'
        · exact ih piece (by simp [h]) c hc

theorem split_no_comma (s : String) : ∀ piece ∈ split s, ',' ∉ piece.data := by
  intro piece hp hc
  unfold split at hp
  obtain ⟨l, hl, rfl⟩ := List.mem_map.mp hp
  have := splitOnP_no_sep (fun x => x == ',') s.data l hl ',' hc
  simp at this

theorem join_split (s : String) : join "," (split s) = s := by
  apply String.ext
  unfold join split
  simp only [List.map_map]
  have h : (String.data ∘ String.mk) = id := by
    funext l
    rfl
  rw [h, List.map_id]
  exact List.intercalate_splitOn _ ','

theorem intercalate_cons_cons (sep x y : List Char) (ys : List (List Char)) :
    sep.intercalate (x :: y :: ys) = x ++ (sep ++ sep.intercalate (y :: ys)) := by
  simp [List.intercalate]

theorem mem_intercalate {sep : List Char} {ls : List (List Char)} {p : List Char}
    (hp : p ∈ ls) {c : Char} (hc : c ∈ p) : c ∈ sep.intercalate ls := by
  induction ls with
  | nil => cases hp
  | cons x xs ih =>
    cases xs with
    | nil =>
      simp only [List.mem_singleton] at hp
      subst hp
      simpa [List.intercalate] using hc
    | cons y ys =>
      rw [intercalate_cons_cons]
      rcases List.mem_cons.mp hp with h | h
      · subst h
        exact List.mem_append_left _ hc
      · exact List.mem_append_right _ (List.mem_append_right _ (ih h))

theorem clamp_cases (n : JSNumber) :
    JSNumber.max (JSNumber.fin 1) (n.orElse (JSNumber.fin 4)) =
      if n = JSNumber.nan ∨ n = JSNumber.fin 0 then JSNumber.fin 4
      else if n.lt (JSNumber.fin 1) = true then JSNumber.fin 1 else n := by
  cases n with
  | nan => simp [JSNumber.orElse, JSNumber.truthy, JSNumber.max]
  | negInf => simp [JSNumber.orElse, JSNumber.truthy, JSNumber.max, JSNumber.lt]
  | posInf => simp [JSNumber.orElse, JSNumber.truthy, JSNumber.max, JSNumber.lt]
  | fin q =>
    by_cases h0 : q = 0
    · subst h0
      simp [JSNumber.orElse, JSNumber.truthy, JSNumber.max]
    · by_cases h1 : q < 1
      · have h2 : ¬ (1 ≤ q) := not_le.mpr h1
        simp [JSNumber.orElse, JSNumber.truthy, JSNumber.max, JSNumber.lt, h0, h1, h2]
      · have h2 : 1 ≤ q := not_lt.mp h1
        simp [JSNumber.orElse, JSNumber.truthy, JSNumber.max, JSNumber.lt, h0, h1, h2]

theorem videos_per_day_eq (f : FormState) :
    (generateConfig f).videos_per_day =
      JSNumber.max (JSNumber.fin 1) ((Number f.videos_per_day).orElse (JSNumber.fin 4)) := rfl

theorem videos_per_day_with (f : FormState) (s : String) :
    (generateConfig { f with videos_per_day := s }).videos_per_day =
      JSNumber.max (JSNumber.fin 1) ((Number s).orElse (JSNumber.fin 4)) := rfl

theorem one_le_clamp (n : JSNumber) :
    (JSNumber.fin 1).le (JSNumber.max (JSNumber.fin 1) (n.orElse (JSNumber.fin 4))) = true := by
  rw [clamp_cases]
  cases n with
  | nan => simp [JSNumber.le]
  | negInf => simp [JSNumber.le, JSNumber.lt]
  | posInf => simp [JSNumber.le, JSNumber.lt]
  | fin q =>
    by_cases h0 : q = 0
    · subst h0
      simp [JSNumber.le]
    · by_cases h1 : q < 1
      · simp [JSNumber.le, JSNumber.lt, h0, h1]
      · simp [JSNumber.le, JSNumber.lt, h0, h1]
        exact not_lt.mp h1

/-! ## The claims -/

/-- C1: for every form state, `generateConfig` returns a configuration whose
nine required string fields are all non-empty and whose `videos_per_day` is a
number that is at least 1 (so it is not less than 1 and not `NaN`). -/
theorem generateConfig_required_fields (f : FormState) :
    (generateConfig f).trending_region ≠ "" ∧
    (generateConfig f).output_dir ≠ "" ∧
    (generateConfig f).assets_dir ≠ "" ∧
    (generateConfig f).youtube_category_id ≠ "" ∧
    (generateConfig f).video_title_template ≠ "" ∧
    (generateConfig f).video_description_template ≠ "" ∧
    (generateConfig f).youtube_privacy_status ≠ "" ∧
    (generateConfig f).youtube_client_secrets_file ≠ "" ∧
    (generateConfig f).youtube_token_file ≠ "" ∧
    (JSNumber.fin 1).le (generateConfig f).videos_per_day = true ∧
    (generateConfig f).videos_per_day.lt (JSNumber.fin 1) = false := by
  refine ⟨?_, ?_, ?_, ?_, ?_, ?_, ?_, ?_, ?_, ?_, ?_⟩
  · exact orElse_ne_empty _ _ (by decide)
  · exact orElse_ne_empty _ _ (by decide)
  · exact orElse_ne_empty _ _ (by decide)
  · exact orElse_ne_empty _ _ (by decide)
  · exact orElse_ne_empty _ _ (by decide)
  · exact orElse_ne_empty _ _ (by decide)
  · exact orElse_ne_empty _ _ (by decide)
  · exact orElse_ne_empty _ _ (by decide)
  · exact orElse_ne_empty _ _ (by decide)
  · rw [videos_per_day_eq]
    exact one_le_clamp _
  · have h := one_le_clamp (Number f.videos_per_day)
    rw [videos_per_day_eq]
    generalize JSNumber.max (JSNumber.fin 1)
      ((Number f.videos_per_day).orElse (JSNumber.fin 4)) = v at h
    cases v with
    | nan => simp [JSNumber.le] at h
    | negInf => simp [JSNumber.le] at h
    | posInf => simp [JSNumber.lt]
    | fin q =>
      simp only [JSNumber.le, decide_eq_true_eq] at h
      simp [JSNumber.lt, h]

/-- C2 (as stated, refuted): the input `-3` parses to the number -3, which is
less than 1, yet `videos_per_day` becomes 1 and not the default 4; the same
happens for `0.5`. -/
theorem videos_per_day_negative_gives_one :
    Number "-3" = JSNumber.fin (-3) ∧
    (Number "-3").lt (JSNumber.fin 1) = true ∧
    (generateConfig { emptyForm with videos_per_day := "-3" }).videos_per_day = JSNumber.fin 1 ∧
    (generateConfig { emptyForm with videos_per_day := "-3" }).videos_per_day ≠ JSNumber.fin 4 ∧
    (generateConfig { emptyForm with videos_per_day := "0.5" }).videos_per_day = JSNumber.fin 1 := by
  decide!

/-- C2 (amended): when the input fails to parse (`NaN`) or parses to zero,
`videos_per_day` is the default 4; when it parses to any other number less
than 1 it is clamped to 1; otherwise it is the parsed number unchanged (no
flooring).  So `0` yields 4, while `-3` and `0.5` yield 1, and `2.5` stays 2.5. -/
theorem videos_per_day_default_or_clamped (f : FormState) :
    (generateConfig f).videos_per_day =
      (if Number f.videos_per_day = JSNumber.nan ∨ Number f.videos_per_day = JSNumber.fin 0 then
        JSNumber.fin 4
      else if (Number f.videos_per_day).lt (JSNumber.fin 1) = true then JSNumber.fin 1
      else Number f.videos_per_day) ∧
    (generateConfig { f with videos_per_day := "0" }).videos_per_day = JSNumber.fin 4 ∧
    (generateConfig { f with videos_per_day := "abc" }).videos_per_day = JSNumber.fin 4 ∧
    (generateConfig { f with videos_per_day := "-3" }).videos_per_day = JSNumber.fin 1 ∧
    (generateConfig { f with videos_per_day := "0.5" }).videos_per_day = JSNumber.fin 1 ∧
    (generateConfig { f with videos_per_day := "2.5" }).videos_per_day = JSNumber.fin (5 / 2) := by
  refine ⟨?_, ?_, ?_, ?_, ?_, ?_⟩
  · rw [videos_per_day_eq]
    exact clamp_cases _
  all_goals
    rw [videos_per_day_with]
    decide!

/-- C3 (as stated, refuted): with every text field empty and `videos_per_day`
holding `4`, the generated `background_music_file` is `null` while
`defaultConfig.background_music_file` is the empty string, so the two
configurations differ; and a `youtube_privacy_status` consisting of one space
is not trimmed and is kept instead of the default `private`. -/
theorem all_empty_form_differs_from_default :
    (generateConfig { emptyForm with videos_per_day := "4" }).background_music_file = none ∧
    defaultConfig.background_music_file = some "" ∧
    generateConfig { emptyForm with videos_per_day := "4" } ≠ defaultConfig ∧
    (generateConfig { emptyForm with videos_per_day := "4", youtube_privacy_status := " " }).youtube_privacy_status
      = " " ∧
    defaultConfig.youtube_privacy_status = "private" := by
  decide!

/-- C3 (amended): when every text field is empty or white space only, the
`youtube_privacy_status` control is empty and `videos_per_day` parses to 4,
`generateConfig` returns `defaultConfig` in every field (tags equal by value to
`["shorts", "cartoon", "comedy"]`) except `background_music_file`, which is
`null` and not the default's empty string. -/
theorem all_blank_form_gives_default (f : FormState)
    (h1 : ∀ c ∈ f.trending_region.data, isWhiteSpace c = true)
    (h2 : ∀ c ∈ f.output_dir.data, isWhiteSpace c = true)
    (h3 : ∀ c ∈ f.assets_dir.data, isWhiteSpace c = true)
    (h4 : ∀ c ∈ f.youtube_category_id.data, isWhiteSpace c = true)
    (h5 : ∀ c ∈ f.tags.data, isWhiteSpace c = true)
    (h6 : ∀ c ∈ f.video_title_template.data, isWhiteSpace c = true)
    (h7 : ∀ c ∈ f.video_description_template.data, isWhiteSpace c = true)
    (h8 : ∀ c ∈ f.youtube_client_secrets_file.data, isWhiteSpace c = true)
    (h9 : ∀ c ∈ f.youtube_token_file.data, isWhiteSpace c = true)
    (h10 : ∀ c ∈ f.background_music_file.data, isWhiteSpace c = true)
    (hstatus : f.youtube_privacy_status = "")
    (hnum : Number f.videos_per_day = JSNumber.fin 4) :
    generateConfig f = { defaultConfig with background_music_file := none } ∧
    (generateConfig f).tags = ["shorts", "cartoon", "comedy"] := by
  have t1 := (trim_eq_empty_iff _).mpr h1
  have t2 := (normalisePath_eq_empty_iff _).mpr ((trim_eq_empty_iff _).mpr h2)
  have t3 := (normalisePath_eq_empty_iff _).mpr ((trim_eq_empty_iff _).mpr h3)
  have t4 := (trim_eq_empty_iff _).mpr h4
  have t6 := (trim_eq_empty_iff _).mpr h6
  have t7 := (trim_eq_empty_iff _).mpr h7
  have t8 := (normalisePath_eq_empty_iff _).mpr ((trim_eq_empty_iff _).mpr h8)
  have t9 := (normalisePath_eq_empty_iff _).mpr ((trim_eq_empty_iff _).mpr h9)
  have t10 := (trim_eq_empty_iff _).mpr h10
  have t5 : ((split f.tags).map trim).filter (fun tag => tag ≠ "") = [] := by
    rw [List.filter_eq_nil_iff]
    intro t ht
    obtain ⟨p, hp, rfl⟩ := List.mem_map.mp ht
    have hp2 : ∀ c ∈ p.data, isWhiteSpace c = true := by
      intro c hc
      apply h5
      have hj := join_split f.tags
      have hd : f.tags.data = [','].intercalate ((split f.tags).map String.data) := by
        conv_lhs => rw [← hj]
        rfl
      rw [hd]
      exact mem_intercalate (List.mem_map_of_mem _ hp) hc
    simp [(trim_eq_empty_iff p).mpr hp2]
  have key : generateConfig f = { defaultConfig with background_music_file := none } := by
    unfold generateConfig
    simp only [t1, t2, t3, t4, t5, t6, t7, t8, t9, t10, hstatus, hnum]
    rw [if_neg (by simp), if_neg (by simp)]
    decide!
  exact ⟨key, by rw [key]; rfl⟩

/-- Witness for C3: the form with every text field empty and `4` in
`videos_per_day`. -/
theorem all_blank_form_gives_default_witness :
    generateConfig { emptyForm with videos_per_day := "4" } =
      { defaultConfig with background_music_file := none } ∧
    (generateConfig { emptyForm with videos_per_day := "4" }).tags =
      ["shorts", "cartoon", "comedy"] :=
  all_blank_form_gives_default { emptyForm with videos_per_day := "4" }
    (by decide) (by decide) (by decide) (by decide) (by decide) (by decide) (by decide)
    (by decide) (by decide) (by decide) (by decide) (by decide!)

theorem tags_eq (f : FormState) :
    (generateConfig f).tags =
      if ((split f.tags).map trim).filter (fun tag => tag ≠ "") = [] then
        ["shorts", "cartoon", "comedy"]
      else ((split f.tags).map trim).filter (fun tag => tag ≠ "") := by
  show (if (((split f.tags).map trim).filter (fun tag => tag ≠ "")).length ≠ 0 then _ else _) = _
  by_cases h : ((split f.tags).map trim).filter (fun tag => tag ≠ "") = []
  · rw [h]
    rfl
  · rw [if_neg h, if_pos]
    simpa using h

theorem tags_with (f : FormState) (s : String) :
    (generateConfig { f with tags := s }).tags =
      if ((split s).map trim).filter (fun tag => tag ≠ "") = [] then
        ["shorts", "cartoon", "comedy"]
      else ((split s).map trim).filter (fun tag => tag ≠ "") :=
  tags_eq _

theorem piece_properties (s t : String)
    (ht : t ∈ ((split s).map trim).filter (fun tag => tag ≠ "")) :
    t ≠ "" ∧ Trimmed t.data ∧ ',' ∉ t.data := by
  rw [List.mem_filter] at ht
  obtain ⟨hm, hne⟩ := ht
  obtain ⟨p, hp, rfl⟩ := List.mem_map.mp hm
  refine ⟨by simpa using hne, trimmed_trimChars _, ?_⟩
  intro hc
  exact split_no_comma s p hp (mem_trimChars hc)

theorem generated_tags_facts (f : FormState) :
    (∀ t ∈ (generateConfig f).tags, t ≠ "" ∧ Trimmed t.data ∧ ',' ∉ t.data) ∧
    (generateConfig f).tags ≠ [] := by
  constructor
  · intro t ht
    rw [tags_eq] at ht
    split_ifs at ht with h
    · revert t
      decide
    · exact piece_properties _ _ ht
  · rw [tags_eq]
    split_ifs with h
    · decide
    · exact h

/-- C4: the generated tags are the input split on commas, each piece trimmed
and the empty ones dropped, in their original order; when no piece survives
the three default tags are used.  The split is characterised by its two
properties (joining the pieces with commas restores the input, no piece
contains a comma); every generated tag is non-empty, has no surrounding white
space and contains no comma; `"a, b ,, c"` gives `["a", "b", "c"]`. -/
theorem tags_are_trimmed_pieces (f : FormState) :
    (generateConfig f).tags =
      (if ((split f.tags).map trim).filter (fun tag => tag ≠ "") = [] then
        ["shorts", "cartoon", "comedy"]
      else ((split f.tags).map trim).filter (fun tag => tag ≠ "")) ∧
    join "," (split f.tags) = f.tags ∧
    (∀ piece ∈ split f.tags, ',' ∉ piece.data) ∧
    (((split f.tags).map trim).filter (fun tag => tag ≠ "")).Sublist ((split f.tags).map trim) ∧
    (∀ t ∈ (split f.tags).map trim,
      t ∈ ((split f.tags).map trim).filter (fun tag => tag ≠ "") ↔ t ≠ "") ∧
    (∀ t ∈ (generateConfig f).tags, t ≠ "" ∧ Trimmed t.data ∧ ',' ∉ t.data) ∧
    (generateConfig f).tags ≠ [] ∧
    (generateConfig { f with tags := "a, b ,, c" }).tags = ["a", "b", "c"] ∧
    (generateConfig { f with tags := " , ," }).tags = ["shorts", "cartoon", "comedy"] := by
  refine ⟨tags_eq f, join_split _, split_no_comma _, List.filter_sublist _, ?_, ?_, ?_, ?_, ?_⟩
  · intro t ht
    simp [List.mem_filter, ht]
  · intro t ht
    rw [tags_eq] at ht
    split_ifs at ht with h
    · revert t
      decide
    · exact piece_properties _ _ ht
  · rw [tags_eq]
    split_ifs with h
    · decide
    · exact h
  · rw [tags_with]
    decide
  · rw [tags_with]
    decide

theorem path_field (v d : String) :
    orElse (normalisePath v) d = if normalisePath v = "" then d else normalisePath v := rfl

theorem backslash_not_mem_normalisePath (v : String) : '\\' ∉ (normalisePath v).data := by
  rw [normalisePath_data]
  intro h
  obtain ⟨c, _, hc⟩ := List.mem_map.mp h
  exact slash_ne_backslash c hc

theorem backslash_not_mem_orElse (v d : String) (hd : '\\' ∉ d.data) :
    '\\' ∉ (orElse (normalisePath v) d).data := by
  unfold orElse
  split_ifs
  · exact hd
  · exact backslash_not_mem_normalisePath v

/-- C5: each path-like field of the generated configuration is the input with
surrounding white space trimmed and every backslash replaced by a forward
slash, every other character kept in place (same length as the trimmed input,
character by character), and the field's default when that string is empty; no
backslash remains.  `out\videos\` gives `out/videos/`, the trailing slash
preserved. -/
theorem path_fields_normalised (f : FormState) (v : String) :
    (generateConfig f).output_dir =
      (if normalisePath f.output_dir = "" then "output" else normalisePath f.output_dir) ∧
    (generateConfig f).assets_dir =
      (if normalisePath f.assets_dir = "" then "assets" else normalisePath f.assets_dir) ∧
    (generateConfig f).youtube_client_secrets_file =
      (if normalisePath f.youtube_client_secrets_file = "" then "credentials/client_secret.json"
       else normalisePath f.youtube_client_secrets_file) ∧
    (generateConfig f).youtube_token_file =
      (if normalisePath f.youtube_token_file = "" then "credentials/token.json"
       else normalisePath f.youtube_token_file) ∧
    (normalisePath v).data = (trim v).data.map (fun c => if c = '\\' then '/' else c) ∧
    (normalisePath v).data.length = (trim v).data.length ∧
    (∃ a b : List Char, v.data = a ++ (trim v).data ++ b ∧
      (∀ c ∈ a, isWhiteSpace c = true) ∧ (∀ c ∈ b, isWhiteSpace c = true)) ∧
    Trimmed (trim v).data ∧
    '\\' ∉ (normalisePath v).data ∧
    '\\' ∉ (generateConfig f).output_dir.data ∧
    '\\' ∉ (generateConfig f).assets_dir.data ∧
    '\\' ∉ (generateConfig f).youtube_client_secrets_file.data ∧
    '\\' ∉ (generateConfig f).youtube_token_file.data ∧
    normalisePath "out\\videos\\" = "out/videos/" ∧
    normalisePath "  C:\\clips\\out dir\\ " = "C:/clips/out dir/" ∧
    (generateConfig { f with output_dir := "out\\videos\\" }).output_dir = "out/videos/" := by
  refine ⟨rfl, rfl, rfl, rfl, rfl, ?_, trimChars_decompose _, trimmed_trimChars _,
    backslash_not_mem_normalisePath v, ?_, ?_, ?_, ?_, ?_, ?_, ?_⟩
  · rw [normalisePath_data, trim_data, List.length_map]
  · exact backslash_not_mem_orElse f.output_dir "output" (by decide)
  · exact backslash_not_mem_orElse f.assets_dir "assets" (by decide)
  · exact backslash_not_mem_orElse f.youtube_client_secrets_file
      "credentials/client_secret.json" (by decide)
  · exact backslash_not_mem_orElse f.youtube_token_file "credentials/token.json" (by decide)
  · decide
  · decide
  · show orElse (normalisePath "out\\videos\\") "output" = _
    decide

/-- C6 (as stated, refuted): a form whose `youtube_privacy_status` holds
`members-only` yields a configuration with that same status, which is none of
`private`, `unlisted`, `public`. -/
theorem privacy_status_not_validated :
    (generateConfig { emptyForm with youtube_privacy_status := "members-only" }).youtube_privacy_status
      = "members-only" ∧
    (generateConfig { emptyForm with youtube_privacy_status := "members-only" }).youtube_privacy_status
      ∉ ["private", "unlisted", "public"] := by
  decide

/-- C6 (amended): the generated `youtube_privacy_status` is the form value
unchanged when that is non-empty and `private` when it is empty; it is one of
`private`, `unlisted`, `public` exactly when the form value is one of these
three or empty. -/
theorem privacy_status_passed_through (f : FormState) :
    (generateConfig f).youtube_privacy_status =
      (if f.youtube_privacy_status = "" then "private" else f.youtube_privacy_status) ∧
    ((generateConfig f).youtube_privacy_status ∈ ["private", "unlisted", "public"] ↔
      f.youtube_privacy_status ∈ ["", "private", "unlisted", "public"]) := by
  have h : (generateConfig f).youtube_privacy_status =
      (if f.youtube_privacy_status = "" then "private" else f.youtube_privacy_status) := rfl
  refine ⟨h, ?_⟩
  rw [h]
  split_ifs with h0
  · simp [h0]
  · simp [h0]

/-- C7 (as stated, refuted): the input `2.5` parses to the number 2.5 and the
generated `videos_per_day` is 2.5, which is not an integer. -/
theorem videos_per_day_not_integer :
    Number "2.5" = JSNumber.fin (5 / 2) ∧
    (generateConfig { emptyForm with videos_per_day := "2.5" }).videos_per_day = JSNumber.fin (5 / 2) ∧
    (generateConfig { emptyForm with videos_per_day := "2.5" }).videos_per_day.isInteger = false := by
  decide!

/-- C7 (amended): the generated `videos_per_day` is an integer exactly when
the input fails to parse, parses to a number less than 1 (the default 4 or the
minimum 1 is then used) or parses to an integer; an input that parses to a
non-integral number above 1 or to `Infinity` is kept as it is, so `2.5` gives
2.5 while `3` gives 3. -/
theorem videos_per_day_integer_iff (f : FormState) :
    ((generateConfig f).videos_per_day.isInteger = true ↔
      (Number f.videos_per_day = JSNumber.nan ∨
        (Number f.videos_per_day).lt (JSNumber.fin 1) = true ∨
        (Number f.videos_per_day).isInteger = true)) ∧
    (generateConfig { f with videos_per_day := "2.5" }).videos_per_day = JSNumber.fin (5 / 2) ∧
    (generateConfig { f with videos_per_day := "3" }).videos_per_day = JSNumber.fin 3 := by
  refine ⟨?_, ?_, ?_⟩
  · rw [videos_per_day_eq, clamp_cases]
    cases hn : Number f.videos_per_day with
    | nan => simp [JSNumber.isInteger]
    | negInf => simp [JSNumber.isInteger, JSNumber.lt]
    | posInf => simp [JSNumber.isInteger, JSNumber.lt]
    | fin q =>
      by_cases h0 : q = 0
      · subst h0
        simp [JSNumber.isInteger, JSNumber.lt]
      · by_cases h1 : q < 1
        · simp [JSNumber.isInteger, JSNumber.lt, h0, h1]
        · simp [JSNumber.isInteger, JSNumber.lt, h0, h1]
  · rw [videos_per_day_with]
    decide!
  · rw [videos_per_day_with]
    decide!

theorem primary_with (config : Config) (v : JSNumber) :
    (updateCommands { config with videos_per_day := v }).primary =
      if v ≠ JSNumber.fin 4 then baseCommand ++ " --count " ++ v.toString else baseCommand :=
  rfl

/-- C8: for every configuration the primary command is exactly the base
command `python -m automation.main --config config.json` when `videos_per_day`
is the default 4, and otherwise the base command followed by ` --count ` and
the `videos_per_day` value as text (`videos_per_day = 6` gives
`... --count 6`); the dry-run and topic-example commands are fixed strings. -/
theorem commands_formatting (config : Config) :
    (updateCommands config).primary =
      (if config.videos_per_day = JSNumber.fin 4 then
        "python -m automation.main --config config.json"
      else "python -m automation.main --config config.json" ++ " --count " ++
        config.videos_per_day.toString) ∧
    (updateCommands { config with videos_per_day := JSNumber.fin 4 }).primary =
      "python -m automation.main --config config.json" ∧
    (updateCommands { config with videos_per_day := JSNumber.fin 6 }).primary =
      "python -m automation.main --config config.json --count 6" ∧
    (updateCommands { config with videos_per_day := JSNumber.fin (5 / 2) }).primary =
      "python -m automation.main --config config.json --count 2.5" ∧
    (updateCommands config).dryRun = "python -m automation.main --config config.json --dry-run" ∧
    (updateCommands config).topic =
      "python -m automation.main --config config.json --topic \"Space Tourism\"" := by
  refine ⟨?_, ?_, ?_, ?_, ?_, ?_⟩
  · show (if config.videos_per_day ≠ JSNumber.fin 4 then _ else _) = _
    by_cases h : config.videos_per_day = JSNumber.fin 4
    · rw [if_neg (not_not.mpr h), if_pos h]
      rfl
    · rw [if_pos h, if_neg h]
      rfl
  · rw [primary_with]
    decide!
  · rw [primary_with]
    decide!
  · rw [primary_with]
    decide!
  · show baseCommand ++ " --dry-run" = _
    decide
  · show baseCommand ++ " --topic \"Space Tourism\"" = _
    decide

/-- C9 (the code at the failing input, and where the claim does hold): for the
status `constructor` the read `statusMap["constructor"]` finds the member
inherited from `Object.prototype`, which is truthy, so the status pill is set
from that member and not to `Ready for launch`.  For `private`, `unlisted`
and `public` the three texts of the claim are produced, and every status that
is neither one of these nor an inherited property name gives
`Ready for launch`. -/
theorem status_text_lookup (config : Config) (a b c : Bool) :
    (updateDashboard { config with youtube_privacy_status := "constructor" } a b c true).statusPill
      = some (Property.inherited "constructor") ∧
    (updateDashboard { config with youtube_privacy_status := "constructor" } a b c true).statusPill
      ≠ some (Property.text "Ready for launch") ∧
    (updateDashboard { config with youtube_privacy_status := "private" } a b c true).statusPill
      = some (Property.text "Uploads saved as Private") ∧
    (updateDashboard { config with youtube_privacy_status := "unlisted" } a b c true).statusPill
      = some (Property.text "Uploads shared as Unlisted") ∧
    (updateDashboard { config with youtube_privacy_status := "public" } a b c true).statusPill
      = some (Property.text "Uploads published instantly") ∧
    (updateDashboard { config with youtube_privacy_status := "archived" } a b c true).statusPill
      = some (Property.text "Ready for launch") ∧
    ((config.youtube_privacy_status ∉ ["private", "unlisted", "public"] ∧
        config.youtube_privacy_status ∉ objectPrototypeKeys) →
      (updateDashboard config a b c true).statusPill = some (Property.text "Ready for launch")) := by
  refine ⟨?_, ?_, ?_, ?_, ?_, ?_, ?_⟩
  · show some (statusValue "constructor") = _
    decide
  · show some (statusValue "constructor") ≠ _
    decide
  · show some (statusValue "private") = _
    decide
  · show some (statusValue "unlisted") = _
    decide
  · show some (statusValue "public") = _
    decide
  · show some (statusValue "archived") = _
    decide
  · rintro ⟨h1, h2⟩
    show some (statusValue config.youtube_privacy_status) = _
    simp only [List.mem_cons, List.mem_singleton, not_or, List.not_mem_nil, or_false] at h1
    obtain ⟨ha, hb, hc⟩ := h1
    simp [statusValue, statusMap, ha, hb, hc, h2]

/-! ## Round trip through the form: strings and tags -/

theorem orElse_trim_fixed (g d : String) (h1 : trim g = g) (h2 : g ≠ "") :
    orElse (trim g) d = g := by
  rw [h1]
  exact orElse_self_of_ne g d h2

theorem trim_orElse_trim (s d : String) (hd : trim d = d) :
    trim (orElse (trim s) d) = orElse (trim s) d := by
  unfold orElse
  split_ifs
  · exact hd
  · exact trim_trim s

theorem roundtrip_trimmed_field (s d : String) (hd : trim d = d) (hne : d ≠ "") :
    orElse (trim (orElse (trim s) d)) d = orElse (trim s) d :=
  orElse_trim_fixed _ _ (trim_orElse_trim s d hd) (orElse_ne_empty _ _ hne)

theorem roundtrip_path_field (s d : String) (hd : normalisePath d = d) (hne : d ≠ "") :
    orElse (normalisePath (orElse (normalisePath s) d)) d = orElse (normalisePath s) d := by
  have h : normalisePath (orElse (normalisePath s) d) = orElse (normalisePath s) d := by
    unfold orElse
    split_ifs
    · exact hd
    · exact normalisePath_idem s
  rw [h]
  exact orElse_self_of_ne _ _ (orElse_ne_empty _ _ hne)

theorem roundtrip_status_field (s d : String) (hne : d ≠ "") :
    orElse (orElse s d) d = orElse s d :=
  orElse_self_of_ne _ _ (orElse_ne_empty _ _ hne)

theorem roundtrip_music_field (s : String) :
    (if trim ((if trim s ≠ "" then some (normalisePath s) else none).getD "") ≠ "" then
      some (normalisePath ((if trim s ≠ "" then some (normalisePath s) else none).getD ""))
    else none) = (if trim s ≠ "" then some (normalisePath s) else none) := by
  by_cases h : trim s = ""
  · simp only [h, ne_eq, not_true_eq_false, if_false, Option.getD_none]
    rw [if_neg]
    simp
    decide
  · have hn : normalisePath s ≠ "" := fun hc => h ((normalisePath_eq_empty_iff s).mp hc)
    simp only [ne_eq, h, not_false_eq_true, if_true, Option.getD_some]
    rw [trim_normalisePath, if_pos hn, normalisePath_idem]

theorem intercalate_comma_space (x : List Char) (xs : List (List Char)) :
    [',', ' '].intercalate (x :: xs) =
      [','].intercalate (x :: xs.map (fun y => ' ' :: y)) := by
  induction xs generalizing x with
  | nil => simp [List.intercalate]
  | cons y ys ih =>
    rw [intercalate_cons_cons, List.map_cons, intercalate_cons_cons, ih y]
    cases ys with
    | nil => simp [List.intercalate]
    | cons z zs =>
      rw [List.map_cons, intercalate_cons_cons, intercalate_cons_cons]
      simp

theorem tags_roundtrip (T : List String) (hne : T ≠ [])
    (h : ∀ t ∈ T, t ≠ "" ∧ Trimmed t.data ∧ ',' ∉ t.data) :
    ((split (join ", " T)).map trim).filter (fun tag => tag ≠ "") = T := by
  cases T with
  | nil => exact absurd rfl hne
  | cons x xs =>
    have hdata : (join ", " (x :: xs)).data =
        [','].intercalate (x.data :: (xs.map String.data).map (fun y => ' ' :: y)) := by
      show [',', ' '].intercalate ((x :: xs).map String.data) = _
      rw [List.map_cons, intercalate_comma_space]
    have hsplit : (join ", " (x :: xs)).data.splitOn ',' =
        x.data :: (xs.map String.data).map (fun y => ' ' :: y) := by
      rw [hdata]
      apply List.splitOn_intercalate
      · intro l hl
        rcases List.mem_cons.mp hl with h1 | h1
        · subst h1
          exact (h x (by simp)).2.2
        · simp only [List.map_map, List.mem_map, Function.comp] at h1
          obtain ⟨t, ht, rfl⟩ := h1
          intro hc
          rcases List.mem_cons.mp hc with h2 | h2
          · exact absurd h2 (by decide)
          · exact (h t (by simp [ht])).2.2 h2
      · simp
    have htrim1 : ∀ t : String, t ∈ x :: xs → trim ⟨t.data⟩ = t := by
      intro t ht
      apply String.ext
      exact trimChars_of_trimmed _ (h t ht).2.1
    have htrim2 : ∀ t : String, t ∈ x :: xs → trim ⟨' ' :: t.data⟩ = t := by
      intro t ht
      apply String.ext
      have hne : t.data ≠ [] := fun hc => (h t ht).1 ((data_eq_nil_iff t).mp hc)
      have := trimChars_sandwich [' '] t.data [] (by decide) (by simp) (h t ht).2.1 hne
      simpa using this
    have hmap : (split (join ", " (x :: xs))).map trim = x :: xs := by
      unfold split
      rw [hsplit]
      simp only [List.map_cons, List.map_map]
      rw [htrim1 x (by simp)]
      congr 1
      have : ∀ ys : List String, (∀ t ∈ ys, t ∈ x :: xs) →
          ys.map (trim ∘ String.mk ∘ (fun y => ' ' :: y) ∘ String.data) = ys := by
        intro ys hys
        induction ys with
        | nil => rfl
        | cons y ys ih =>
          rw [List.map_cons, ih (fun t ht => hys t (by simp [ht]))]
          congr 1
          exact htrim2 y (hys y (by simp))
      exact this xs (fun t ht => by simp [ht])
    rw [hmap, List.filter_eq_self]
    intro t ht
    simpa using (h t ht).1

theorem generated_tags_roundtrip (f : FormState) :
    ((split (join ", " (generateConfig f).tags)).map trim).filter (fun tag => tag ≠ "") =
      (generateConfig f).tags := by
  apply tags_roundtrip
  · exact (generated_tags_facts f).2
  · exact (generated_tags_facts f).1

/-! ## Logarithms and powers -/

theorem log2Fuel_eq (fuel n : Nat) (h : n ≤ fuel) : log2Fuel fuel n = Nat.log 2 n := by
  induction fuel generalizing n with
  | zero =>
    have : n = 0 := Nat.le_zero.mp h
    subst this
    simp [log2Fuel]
  | succ fuel ih =>
    unfold log2Fuel
    split_ifs with h2
    · exact (Nat.log_of_lt h2).symm
    · have h3 : 2 ≤ n := not_lt.mp h2
      rw [ih (n / 2) (by omega), Nat.log_of_one_lt_of_le (by norm_num) h3]

theorem log10Fuel_eq (fuel n : Nat) (h : n ≤ fuel) : log10Fuel fuel n = Nat.log 10 n := by
  induction fuel generalizing n with
  | zero =>
    have : n = 0 := Nat.le_zero.mp h
    subst this
    simp [log10Fuel]
  | succ fuel ih =>
    unfold log10Fuel
    split_ifs with h2
    · exact (Nat.log_of_lt h2).symm
    · have h3 : 10 ≤ n := not_lt.mp h2
      rw [ih (n / 10) (by omega), Nat.log_of_one_lt_of_le (by norm_num) h3]

theorem natLog2_eq (n : Nat) : natLog2 n = Nat.log 2 n := log2Fuel_eq n n le_rfl

theorem natLog10_eq (n : Nat) : natLog10 n = Nat.log 10 n := log10Fuel_eq n n le_rfl

theorem natpow_cast_eq_zpow (b : Nat) (hb : 0 < b) (e : Int) :
    (if 0 ≤ e then ((b ^ e.toNat : Nat) : ℚ) else 1 / ((b ^ (-e).toNat : Nat) : ℚ))
      = (b : ℚ) ^ e := by
  have hb0 : (b : ℚ) ≠ 0 := by exact_mod_cast hb.ne'
  split_ifs with h
  · obtain ⟨n, rfl⟩ := Int.eq_ofNat_of_zero_le h
    simp
  · have h2 : 0 ≤ -e := by omega
    obtain ⟨n, hn⟩ := Int.eq_ofNat_of_zero_le h2
    have he : e = -(n : Int) := by omega
    subst he
    simp

theorem pow2_eq (e : Int) : pow2 e = (2 : ℚ) ^ e := by
  have := natpow_cast_eq_zpow 2 (by norm_num) e
  simpa [pow2] using this

theorem pow10_eq (e : Int) : pow10 e = (10 : ℚ) ^ e := by
  have := natpow_cast_eq_zpow 10 (by norm_num) e
  simpa [pow10] using this

theorem pow2_pos (e : Int) : 0 < pow2 e := by
  rw [pow2_eq]
  positivity

theorem pow10_pos (e : Int) : 0 < pow10 e := by
  rw [pow10_eq]
  positivity

theorem pow2_add (a b : Int) : pow2 (a + b) = pow2 a * pow2 b := by
  rw [pow2_eq, pow2_eq, pow2_eq, zpow_add₀ (by norm_num)]

theorem pow10_add (a b : Int) : pow10 (a + b) = pow10 a * pow10 b := by
  rw [pow10_eq, pow10_eq, pow10_eq, zpow_add₀ (by norm_num)]

theorem pow2_lt_iff (a b : Int) : pow2 a < pow2 b ↔ a < b := by
  rw [pow2_eq, pow2_eq]
  exact zpow_lt_zpow_iff_right₀ (by norm_num)

theorem pow2_le_iff (a b : Int) : pow2 a ≤ pow2 b ↔ a ≤ b := by
  rw [pow2_eq, pow2_eq]
  exact zpow_le_zpow_iff_right₀ (by norm_num)

theorem pow10_lt_iff (a b : Int) : pow10 a < pow10 b ↔ a < b := by
  rw [pow10_eq, pow10_eq]
  exact zpow_lt_zpow_iff_right₀ (by norm_num)

theorem pow10_natCast (n : Nat) : pow10 (n : Int) = ((10 ^ n : Nat) : ℚ) := by
  rw [pow10_eq]
  simp

theorem pow2_natCast (n : Nat) : pow2 (n : Int) = ((2 ^ n : Nat) : ℚ) := by
  rw [pow2_eq]
  simp

/-- Bracketing of a positive rational between consecutive powers of a base,
from the logarithms of its numerator and denominator. -/
theorem log_bracket (b : Nat) (hb : 1 < b) (q : ℚ) (hq : 0 < q) :
    (b : ℚ) ^ (((Nat.log b q.num.natAbs : Int) - (Nat.log b q.den : Int)) - 1) < q ∧
    q < (b : ℚ) ^ (((Nat.log b q.num.natAbs : Int) - (Nat.log b q.den : Int)) + 1) := by
  have hb0 : (0 : ℚ) < b := by exact_mod_cast (by omega : 0 < b)
  have hbne : (b : ℚ) ≠ 0 := hb0.ne'
  have hnum : 0 < q.num := Rat.num_pos.mpr hq
  have hN : q.num.natAbs ≠ 0 := by
    intro h
    have := Int.natAbs_eq_zero.mp h
    omega
  have hD : q.den ≠ 0 := q.den_nz
  have hqeq : q = (q.num.natAbs : ℚ) / (q.den : ℚ) := by
    have h2 : (q.num.natAbs : ℚ) = (q.num : ℚ) := by
      rw [Nat.cast_natAbs, abs_of_pos hnum]
    rw [h2]
    exact (Rat.num_div_den q).symm
  have hDpos : (0 : ℚ) < q.den := by exact_mod_cast Nat.pos_of_ne_zero hD
  have hNpos : (0 : ℚ) < q.num.natAbs := by exact_mod_cast Nat.pos_of_ne_zero hN
  have a1 : ((b ^ Nat.log b q.num.natAbs : Nat) : ℚ) ≤ q.num.natAbs := by
    exact_mod_cast Nat.pow_log_le_self b hN
  have a2 : (q.num.natAbs : ℚ) < ((b ^ (Nat.log b q.num.natAbs + 1) : Nat) : ℚ) := by
    exact_mod_cast Nat.lt_pow_succ_log_self hb q.num.natAbs
  have a3 : ((b ^ Nat.log b q.den : Nat) : ℚ) ≤ q.den := by
    exact_mod_cast Nat.pow_log_le_self b hD
  have a4 : (q.den : ℚ) < ((b ^ (Nat.log b q.den + 1) : Nat) : ℚ) := by
    exact_mod_cast Nat.lt_pow_succ_log_self hb q.den
  push_cast at a1 a2 a3 a4
  set la := Nat.log b q.num.natAbs
  set lb := Nat.log b q.den
  have e1 : (b : ℚ) ^ (((la : Int) - (lb : Int)) - 1) = (b : ℚ) ^ la / (b : ℚ) ^ (lb + 1) := by
    rw [show ((la : Int) - (lb : Int)) - 1 = (la : Int) - ((lb + 1 : Nat) : Int) by push_cast; ring,
      zpow_sub₀ hbne, zpow_natCast, zpow_natCast]
  have e2 : (b : ℚ) ^ (((la : Int) - (lb : Int)) + 1) = (b : ℚ) ^ (la + 1) / (b : ℚ) ^ lb := by
    rw [show ((la : Int) - (lb : Int)) + 1 = ((la + 1 : Nat) : Int) - (lb : Int) by push_cast; ring,
      zpow_sub₀ hbne, zpow_natCast, zpow_natCast]
  have p1 : (0 : ℚ) < (b : ℚ) ^ la := by positivity
  have p2 : (0 : ℚ) < (b : ℚ) ^ lb := by positivity
  have p3 : (0 : ℚ) < (b : ℚ) ^ (lb + 1) := by positivity
  constructor
  · rw [e1, hqeq, div_lt_div_iff₀ p3 hDpos]
    calc (b : ℚ) ^ la * q.den < (b : ℚ) ^ la * (b : ℚ) ^ (lb + 1) := by
          exact mul_lt_mul_of_pos_left a4 p1
      _ ≤ q.num.natAbs * (b : ℚ) ^ (lb + 1) := by
          exact mul_le_mul_of_nonneg_right a1 p3.le
  · rw [e2]
    conv_lhs => rw [hqeq]
    rw [div_lt_div_iff₀ hDpos p2]
    calc (q.num.natAbs : ℚ) * (b : ℚ) ^ lb ≤ q.num.natAbs * q.den := by
          exact mul_le_mul_of_nonneg_left a3 hNpos.le
      _ < (b : ℚ) ^ (la + 1) * q.den := by
          exact mul_lt_mul_of_pos_right a2 hDpos

theorem floorLog2_spec (q : ℚ) (hq : 0 < q) :
    pow2 (floorLog2 q) ≤ q ∧ q < pow2 (floorLog2 q + 1) := by
  have hb := log_bracket 2 (by norm_num) q hq
  unfold floorLog2
  simp only [natLog2_eq, pow2_eq]
  push_cast at hb
  split_ifs with h
  · exact ⟨h, hb.2⟩
  · refine ⟨hb.1.le, ?_⟩
    rw [sub_add_cancel]
    exact not_le.mp h

theorem floorLog10_spec (q : ℚ) (hq : 0 < q) :
    pow10 (floorLog10 q) ≤ q ∧ q < pow10 (floorLog10 q + 1) := by
  have hb := log_bracket 10 (by norm_num) q hq
  unfold floorLog10
  simp only [natLog10_eq, pow10_eq]
  push_cast at hb
  split_ifs with h
  · exact ⟨h, hb.2⟩
  · refine ⟨hb.1.le, ?_⟩
    rw [sub_add_cancel]
    exact not_le.mp h

theorem floorLog2_le_of_lt (q : ℚ) (hq : 0 < q) (t : Int) (h : q < pow2 (t + 1)) :
    floorLog2 q ≤ t := by
  have h1 := (floorLog2_spec q hq).1
  have h2 : pow2 (floorLog2 q) < pow2 (t + 1) := lt_of_le_of_lt h1 h
  have := (pow2_lt_iff _ _).mp h2
  omega

theorem floorLog2_ge_of_le (q : ℚ) (hq : 0 < q) (t : Int) (h : pow2 t ≤ q) :
    t ≤ floorLog2 q := by
  have h1 := (floorLog2_spec q hq).2
  have h2 : pow2 t < pow2 (floorLog2 q + 1) := lt_of_le_of_lt h h1
  have := (pow2_lt_iff _ _).mp h2
  omega

/-! ## Rounding to binary64 -/

theorem natFloor_le (r : ℚ) (hr : 0 ≤ r) : ((r.num.natAbs / r.den : Nat) : ℚ) ≤ r := by
  have hnum : 0 ≤ r.num := Rat.num_nonneg.mpr hr
  have hden : (0 : ℚ) < r.den := by exact_mod_cast r.den_pos
  have h1 : (r.num.natAbs / r.den) * r.den ≤ r.num.natAbs := Nat.div_mul_le_self _ _
  have h2 : ((r.num.natAbs / r.den : Nat) : ℚ) * r.den ≤ (r.num.natAbs : ℚ) := by
    exact_mod_cast h1
  have h3 : (r.num.natAbs : ℚ) = (r.num : ℚ) := by
    rw [Nat.cast_natAbs, abs_of_nonneg hnum]
  have h4 : r = (r.num : ℚ) / r.den := (Rat.num_div_den r).symm
  rw [h3] at h2
  calc ((r.num.natAbs / r.den : Nat) : ℚ) ≤ (r.num : ℚ) / r.den := by
        rw [le_div_iff₀ hden]
        exact h2
    _ = r := h4.symm

theorem natFloor_natCast (n : Nat) : ((n : ℚ).num.natAbs / (n : ℚ).den : Nat) = n := by
  simp

theorem roundHalfEven_natCast (n : Nat) : roundHalfEven (n : ℚ) = n := by
  unfold roundHalfEven
  simp

theorem roundHalfEven_le (r : ℚ) (hr : 0 ≤ r) (N : Nat) (h : r < N) : roundHalfEven r ≤ N := by
  have h1 := natFloor_le r hr
  have h2 : ((r.num.natAbs / r.den : Nat) : ℚ) < N := lt_of_le_of_lt h1 h
  have h3 : r.num.natAbs / r.den < N := by exact_mod_cast h2
  unfold roundHalfEven
  simp only
  split_ifs <;> omega

theorem pow2_53 : pow2 53 = ((2 ^ 53 : Nat) : ℚ) := pow2_natCast 53

theorem roundDouble_zero : roundDouble 0 = JSNumber.fin 0 := by
  unfold roundDouble
  rw [if_pos rfl]

theorem roundDouble_of_ne (q : ℚ) (h0 : q ≠ 0) :
    roundDouble q =
      if pow2 1024 ≤ roundedMagnitude q then
        (if 0 < q then JSNumber.posInf else JSNumber.negInf)
      else JSNumber.fin (if 0 < q then roundedMagnitude q else -roundedMagnitude q) := by
  unfold roundDouble roundedMagnitude
  rw [if_neg h0]

theorem roundedMagnitude_shape (q : ℚ) (h0 : q ≠ 0) :
    ∃ (m : Nat) (e : Int), m ≤ 2 ^ 53 ∧ -1022 ≤ e ∧
      roundedMagnitude q = (m : ℚ) * pow2 (e - 52) := by
  have ha : 0 < |q| := abs_pos.mpr h0
  have hup : 0 < pow2 (Max.max (floorLog2 |q|) (-1022) - 52) := pow2_pos _
  refine ⟨roundHalfEven (|q| / pow2 (Max.max (floorLog2 |q|) (-1022) - 52)),
    Max.max (floorLog2 |q|) (-1022), ?_, le_max_right _ _, rfl⟩
  apply roundHalfEven_le _ (by positivity)
  rw [div_lt_iff₀ hup]
  have h3 := (floorLog2_spec |q| ha).2
  have h4 : pow2 (floorLog2 |q| + 1) ≤ pow2 (Max.max (floorLog2 |q|) (-1022) + 1) := by
    rw [pow2_le_iff]
    have := le_max_left (floorLog2 |q|) (-1022)
    omega
  have h5 : pow2 (Max.max (floorLog2 |q|) (-1022) + 1) =
      ((2 ^ 53 : Nat) : ℚ) * pow2 (Max.max (floorLog2 |q|) (-1022) - 52) := by
    rw [← pow2_53, ← pow2_add]
    congr 1
    ring
  rw [← h5]
  exact lt_of_lt_of_le h3 h4

theorem isBinary64_of_roundDouble (q x : ℚ) (h : roundDouble q = JSNumber.fin x) :
    IsBinary64 x := by
  by_cases h0 : q = 0
  · rw [h0, roundDouble_zero] at h
    have : x = 0 := by
      injection h with h
      exact h.symm
    subst this
    exact ⟨0, 0, by norm_num, by norm_num, by simp, by simpa using pow2_pos 1024⟩
  · rw [roundDouble_of_ne q h0] at h
    obtain ⟨m, e, hm, he, hr⟩ := roundedMagnitude_shape q h0
    have hr0 : 0 ≤ roundedMagnitude q := by
      rw [hr]
      have := pow2_pos (e - 52)
      positivity
    split_ifs at h with h1 h2
    · have hx : x = roundedMagnitude q := by
        injection h with h
        exact h.symm
      refine ⟨m, e, hm, he, ?_, ?_⟩
      · rw [hx, abs_of_nonneg hr0, hr]
      · rw [hx, abs_of_nonneg hr0]
        exact not_le.mp h1
    · have hx : x = -roundedMagnitude q := by
        injection h with h
        exact h.symm
      refine ⟨m, e, hm, he, ?_, ?_⟩
      · rw [hx, abs_neg, abs_of_nonneg hr0, hr]
      · rw [hx, abs_neg, abs_of_nonneg hr0]
        exact not_le.mp h1

theorem roundDouble_of_isBinary64 (x : ℚ) (h : IsBinary64 x) :
    roundDouble x = JSNumber.fin x := by
  obtain ⟨m, e, hm, he, hx, hlt⟩ := h
  by_cases h0 : x = 0
  · rw [h0]
    exact roundDouble_zero
  rw [roundDouble_of_ne x h0]
  unfold roundedMagnitude
  have ha : 0 < |x| := abs_pos.mpr h0
  set e2 := Max.max (floorLog2 |x|) (-1022) with he2
  have hup : 0 < pow2 (e2 - 52) := pow2_pos _
  have hmpos : (0 : ℚ) < m := by
    by_contra hc
    have : (m : ℚ) = 0 := le_antisymm (not_lt.mp hc) (Nat.cast_nonneg m)
    rw [this, zero_mul] at hx
    exact ha.ne' hx
  -- the rounded quotient is exact
  have key : ∃ N : Nat, |x| / pow2 (e2 - 52) = (N : ℚ) := by
    have hle : e2 ≤ e + 1 := by
      apply max_le
      · apply floorLog2_le_of_lt _ ha
        rw [hx]
        have h5 : pow2 (e + 1 + 1) = ((2 ^ 54 : Nat) : ℚ) * pow2 (e - 52) := by
          rw [← pow2_natCast 54, ← pow2_add]
          congr 1
          ring
        rw [h5]
        apply mul_lt_mul_of_pos_right _ (pow2_pos _)
        have : (m : ℚ) ≤ ((2 ^ 53 : Nat) : ℚ) := by exact_mod_cast hm
        have h54 : ((2 ^ 53 : Nat) : ℚ) < ((2 ^ 54 : Nat) : ℚ) := by norm_num
        exact lt_of_le_of_lt this h54
      · omega
    rcases lt_or_eq_of_le hle with hlt2 | heq
    · have hd : 0 ≤ e - e2 := by omega
      obtain ⟨n, hn⟩ := Int.eq_ofNat_of_zero_le hd
      refine ⟨m * 2 ^ n, ?_⟩
      rw [hx, div_eq_iff hup.ne']
      have h6 : pow2 (e - 52) = pow2 (n : Int) * pow2 (e2 - 52) := by
        rw [← pow2_add]
        congr 1
        omega
      rw [h6, pow2_natCast]
      push_cast
      ring
    · -- then the significand is `2^53`
      have hfl : e + 1 ≤ floorLog2 |x| := by
        have : e2 = floorLog2 |x| ∨ e2 = -1022 := by
          rcases max_choice (floorLog2 |x|) (-1022) with hc | hc
          · exact Or.inl hc
          · exact Or.inr hc
        rcases this with hc | hc
        · omega
        · omega
      have h7 := (floorLog2_spec |x| ha).1
      have h8 : pow2 (e + 1) ≤ |x| := le_trans ((pow2_le_iff _ _).mpr hfl) h7
      have h5 : pow2 (e + 1) = ((2 ^ 53 : Nat) : ℚ) * pow2 (e - 52) := by
        rw [← pow2_53, ← pow2_add]
        congr 1
        ring
      rw [h5, hx] at h8
      have h9 : ((2 ^ 53 : Nat) : ℚ) ≤ m := le_of_mul_le_mul_right h8 (pow2_pos _)
      have h10 : 2 ^ 53 ≤ m := by exact_mod_cast h9
      have hm53 : m = 2 ^ 53 := le_antisymm hm h10
      refine ⟨2 ^ 52, ?_⟩
      rw [hx, div_eq_iff hup.ne', heq, hm53]
      have h6 : pow2 (e - 52) = pow2 (-1) * pow2 (e + 1 - 52) := by
        rw [← pow2_add]
        congr 1
        ring
      rw [h6]
      have h11 : pow2 (-1) = 1 / 2 := by
        rw [pow2_eq]
        norm_num
      rw [h11]
      push_cast
      ring
  obtain ⟨N, hN⟩ := key
  have hr : (roundHalfEven (|x| / pow2 (e2 - 52)) : ℚ) * pow2 (e2 - 52) = |x| := by
    rw [hN, roundHalfEven_natCast, ← hN, div_mul_cancel₀ _ hup.ne']
  simp only [hr]
  rw [if_neg (not_le.mpr hlt)]
  congr 1
  split_ifs with hpos
  · exact abs_of_pos hpos
  · rw [abs_of_nonpos (not_lt.mp hpos), neg_neg]

theorem roundDouble_idem (q x : ℚ) (h : roundDouble q = JSNumber.fin x) :
    roundDouble x = JSNumber.fin x :=
  roundDouble_of_isBinary64 x (isBinary64_of_roundDouble q x h)

/-! ## The shortest decimal of a binary64 value -/

theorem den_dvd_two_pow (x : ℚ) (hx : 0 < x) (h : IsBinary64 x) : ∃ t : Nat, x.den ∣ 2 ^ t := by
  obtain ⟨m, e, _, _, hm, _⟩ := h
  rw [abs_of_pos hx] at hm
  by_cases he : 0 ≤ e - 52
  · obtain ⟨n, hn⟩ := Int.eq_ofNat_of_zero_le he
    refine ⟨0, ?_⟩
    have : x = ((m * 2 ^ n : Nat) : ℚ) := by
      rw [hm, hn, pow2_natCast]
      push_cast
      ring
    rw [this, Rat.den_natCast]
    exact one_dvd _
  · have he2 : 0 ≤ -(e - 52) := by omega
    obtain ⟨n, hn⟩ := Int.eq_ofNat_of_zero_le he2
    refine ⟨n, ?_⟩
    have hx2 : x = ((m : Int) : ℚ) / (((2 ^ n : Nat) : Int) : ℚ) := by
      rw [hm, show e - 52 = -(n : Int) by omega, pow2_eq, zpow_neg, zpow_natCast]
      push_cast
      ring
    have h3 := Rat.den_dvd (m : Int) ((2 ^ n : Nat) : Int)
    rw [Rat.divInt_eq_div, ← hx2] at h3
    exact Int.natCast_dvd_natCast.mp h3

theorem decimal_of_dyadic (x : ℚ) (hx : 0 < x) (h : IsBinary64 x) (K : Nat) (hK : x.den ≤ K) :
    ∃ c : Nat, x * (10 : ℚ) ^ K = (c : ℚ) := by
  obtain ⟨t, ht⟩ := den_dvd_two_pow x hx h
  obtain ⟨j, _, hj⟩ := (Nat.dvd_prime_pow Nat.prime_two).mp ht
  have hjK : j ≤ K := by
    have : j < 2 ^ j := Nat.lt_two_pow j
    omega
  have hnum : 0 < x.num := Rat.num_pos.mpr hx
  refine ⟨x.num.natAbs * 5 ^ j * 10 ^ (K - j), ?_⟩
  have h1 : (x.num.natAbs : ℚ) = (x.num : ℚ) := by
    rw [Nat.cast_natAbs, abs_of_pos hnum]
  have h2 : x = (x.num : ℚ) / ((2 : ℚ) ^ j) := by
    conv_lhs => rw [← Rat.num_div_den x, hj]
    push_cast
    rfl
  have e10 : (10 : ℚ) ^ j = 2 ^ j * 5 ^ j := by
    rw [← mul_pow]
    norm_num
  have h3 : (10 : ℚ) ^ K = 2 ^ j * 5 ^ j * 10 ^ (K - j) := by
    rw [← e10, ← pow_add]
    congr 1
    omega
  push_cast
  rw [h1, h3]
  conv_lhs => rw [h2]
  field_simp
  ring

theorem normalise_value (n0 : Int) (k c : Nat) (hk : 1 ≤ k) :
    ((normalise n0 k c).1 : ℚ) * pow10 ((normalise n0 k c).2 - (k : Int)) =
      (c : ℚ) * pow10 (n0 - (k : Int)) := by
  unfold normalise
  split_ifs with h
  · subst h
    simp only
    have h1 : n0 + 1 - (k : Int) = 1 + (n0 - (k : Int)) := by ring
    have h2 : pow10 1 = 10 := by
      rw [pow10_eq]
      norm_num
    rw [h1, pow10_add, h2]
    have h3 : (10 : Nat) ^ k = 10 ^ (k - 1) * 10 := by
      rw [← pow_succ]
      congr 1
      omega
    rw [h3]
    push_cast
    ring
  · rfl

theorem converts_valid (x : ℚ) (n0 : Int) (k c : Nat) (h : converts x n0 k c = true) :
    1 ≤ k ∧ 10 ^ (k - 1) ≤ (normalise n0 k c).1 ∧ (normalise n0 k c).1 < 10 ^ k ∧
      roundDouble (((normalise n0 k c).1 : ℚ) * pow10 ((normalise n0 k c).2 - (k : Int)))
        = JSNumber.fin x := by
  unfold converts at h
  simp only [Bool.and_eq_true, decide_eq_true_eq] at h
  obtain ⟨⟨h1, h2⟩, h3⟩ := h
  have hk : 1 ≤ k := by
    by_contra hc
    have : k = 0 := by omega
    subst this
    simp at h1 h2
    omega
  refine ⟨hk, h1, h2, ?_⟩
  rw [normalise_value n0 k c hk]
  exact h3

theorem nearest_valid (x : ℚ) (n0 : Int) (k lo hi s : Nat) (n : Int)
    (h : nearest x n0 k lo hi = some (s, n)) :
    1 ≤ k ∧ 10 ^ (k - 1) ≤ s ∧ s < 10 ^ k ∧
      roundDouble ((s : ℚ) * pow10 (n - (k : Int))) = JSNumber.fin x := by
  unfold nearest at h
  simp only at h
  split_ifs at h with h1 h2
  · simp only [Bool.and_eq_true] at h1
    have hv := converts_valid x n0 k _ h1.1
    injection h with h
    rw [h] at hv
    exact hv
  · have hv := converts_valid x n0 k _ h2
    injection h with h
    rw [h] at hv
    exact hv

theorem nearest_isSome_of_converts (x : ℚ) (n0 : Int) (k lo hi : Nat)
    (h : converts x n0 k lo = true) : (nearest x n0 k lo hi).isSome = true := by
  unfold nearest
  simp only
  split_ifs <;> rfl

theorem candidate_valid (x : ℚ) (n0 : Int) (k s : Nat) (n : Int)
    (h : candidate x n0 k = some (s, n)) :
    1 ≤ k ∧ 10 ^ (k - 1) ≤ s ∧ s < 10 ^ k ∧
      roundDouble ((s : ℚ) * pow10 (n - (k : Int))) = JSNumber.fin x :=
  nearest_valid x n0 k _ _ s n h

theorem candidate_isSome_of_converts (x : ℚ) (n0 : Int) (k : Nat)
    (h : converts x n0 k
      ((x / pow10 (n0 - (k : Int))).num.natAbs / (x / pow10 (n0 - (k : Int))).den) = true) :
    (candidate x n0 k).isSome = true :=
  nearest_isSome_of_converts x n0 k _ _ h

theorem shortestFrom_valid (x : ℚ) (n0 : Int) (fuel k : Nat)
    (h : ∃ j, j < fuel ∧ (candidate x n0 (k + j)).isSome = true) :
    candidate x n0 (shortestFrom x n0 fuel k).2.2 =
      some ((shortestFrom x n0 fuel k).1, (shortestFrom x n0 fuel k).2.1) := by
  induction fuel generalizing k with
  | zero =>
    obtain ⟨j, hj, _⟩ := h
    omega
  | succ fuel ih =>
    unfold shortestFrom
    cases hc : candidate x n0 k with
    | some p =>
      obtain ⟨s, n⟩ := p
      simp only [hc]
    | none =>
      simp only
      apply ih
      obtain ⟨j, hj, hs⟩ := h
      cases j with
      | zero =>
        rw [Nat.add_zero, hc] at hs
        exact absurd hs (by simp)
      | succ j =>
        refine ⟨j, by omega, ?_⟩
        rw [show k + 1 + j = k + (j + 1) by omega]
        exact hs

theorem exact_candidate (x : ℚ) (hx : 0 < x) (hb : IsBinary64 x) :
    (candidate x (floorLog10 x + 1)
      (1 + (x.den + (floorLog10 x + 1).natAbs - 1))).isSome = true := by
  set n0 := floorLog10 x + 1 with hn0
  have hden : 1 ≤ x.den := x.den_pos
  set k := 1 + (x.den + n0.natAbs - 1) with hk
  have hkval : k = x.den + n0.natAbs := by omega
  -- the exponent of the scale
  have habs : n0 ≤ (n0.natAbs : Int) := Int.le_natAbs
  have hK : 0 ≤ (k : Int) - n0 := by omega
  obtain ⟨K, hKeq⟩ := Int.eq_ofNat_of_zero_le hK
  have hKden : x.den ≤ K := by
    have h1 : (x.den : Int) ≤ (k : Int) - n0 := by omega
    rw [hKeq] at h1
    exact_mod_cast h1
  obtain ⟨c, hc⟩ := decimal_of_dyadic x hx hb K hKden
  have hscale : pow10 (n0 - (k : Int)) = 1 / (10 : ℚ) ^ K := by
    rw [show n0 - (k : Int) = -(K : Int) by omega, pow10_eq, zpow_neg, zpow_natCast, one_div]
  have hten : (0 : ℚ) < (10 : ℚ) ^ K := by positivity
  have hr : x / pow10 (n0 - (k : Int)) = (c : ℚ) := by
    rw [hscale, div_div_eq_mul_div, div_one]
    exact hc
  apply candidate_isSome_of_converts
  rw [hr, natFloor_natCast]
  have hspec := floorLog10_spec x hx
  -- bounds on the digits
  have hupper : c < 10 ^ k := by
    have h1 : (c : ℚ) < ((10 ^ k : Nat) : ℚ) := by
      rw [← hc, ← pow10_natCast k]
      have h2 : pow10 (k : Int) = pow10 n0 * (10 : ℚ) ^ K := by
        rw [show (k : Int) = n0 + (K : Int) by omega, pow10_add, pow10_natCast]
        push_cast
        rfl
      rw [h2]
      exact mul_lt_mul_of_pos_right hspec.2 hten
    exact_mod_cast h1
  have hk1 : 1 ≤ k := by omega
  have hlower : 10 ^ (k - 1) ≤ c := by
    have h1 : ((10 ^ (k - 1) : Nat) : ℚ) ≤ (c : ℚ) := by
      rw [← hc, ← pow10_natCast (k - 1)]
      have h2 : pow10 ((k - 1 : Nat) : Int) = pow10 (floorLog10 x) * (10 : ℚ) ^ K := by
        rw [show ((k - 1 : Nat) : Int) = floorLog10 x + (K : Int) by omega, pow10_add,
          pow10_natCast]
        push_cast
        rfl
      rw [h2]
      exact mul_le_mul_of_nonneg_right hspec.1 hten.le
    exact_mod_cast h1
  have hnorm : normalise n0 k c = (c, n0) := by
    unfold normalise
    rw [if_neg (by omega)]
  have hval : (c : ℚ) * pow10 (n0 - (k : Int)) = x := by
    rw [← hr]
    exact div_mul_cancel₀ _ (pow10_pos _).ne'
  unfold converts
  rw [hnorm, hval, roundDouble_of_isBinary64 x hb]
  simp [hlower, hupper]

/-- The decimal chosen for a positive binary64 value has `k` digits and
converts back to the value. -/
theorem shortestDecimal_valid (x : ℚ) (hx : 0 < x) (hb : IsBinary64 x) :
    1 ≤ (shortestDecimal x).2.2 ∧
    10 ^ ((shortestDecimal x).2.2 - 1) ≤ (shortestDecimal x).1 ∧
    (shortestDecimal x).1 < 10 ^ (shortestDecimal x).2.2 ∧
    roundDouble (((shortestDecimal x).1 : ℚ) *
      pow10 ((shortestDecimal x).2.1 - ((shortestDecimal x).2.2 : Int))) = JSNumber.fin x := by
  apply candidate_valid x (floorLog10 x + 1)
  unfold shortestDecimal
  simp only
  apply shortestFrom_valid
  refine ⟨x.den + (floorLog10 x + 1).natAbs - 1, ?_, exact_candidate x hx hb⟩
  have := x.den_pos
  omega

/-! ## Decimal digits -/

theorem digitChar_toNat (d : Nat) (h : d < 10) : (Nat.digitChar d).toNat = 48 + d := by
  interval_cases d <;> rfl

theorem isDigit_digitChar (d : Nat) (h : d < 10) : isDigit (Nat.digitChar d) = true := by
  interval_cases d <;> rfl

theorem isWhiteSpace_of_isDigit (c : Char) (h : isDigit c = true) : isWhiteSpace c = false := by
  unfold isDigit at h
  simp only [Bool.and_eq_true, decide_eq_true_eq] at h
  unfold isWhiteSpace
  simp only [Bool.or_eq_false_iff, Bool.and_eq_false_iff, decide_eq_false_iff_not]
  refine ⟨⟨⟨⟨⟨⟨⟨⟨⟨⟨⟨⟨⟨⟨?_, ?_⟩, ?_⟩, ?_⟩, ?_⟩, ?_⟩, ?_⟩, ?_⟩, ?_⟩, ?_⟩, ?_⟩, ?_⟩, ?_⟩, ?_⟩, ?_⟩ <;>
    omega

theorem foldl_digits (acc : Nat) (l : List Char) :
    l.foldl (fun a c => 10 * a + (c.toNat - 48)) acc = acc * 10 ^ l.length + digitsValue l := by
  unfold digitsValue
  induction l generalizing acc with
  | nil => simp
  | cons c t ih =>
    rw [List.foldl_cons, List.foldl_cons, ih, ih (10 * 0 + (c.toNat - 48)), List.length_cons]
    ring

theorem digitsValue_append (a b : List Char) :
    digitsValue (a ++ b) = digitsValue a * 10 ^ b.length + digitsValue b := by
  unfold digitsValue
  rw [List.foldl_append, foldl_digits]
  rfl

theorem digitsValue_zeros (n : Nat) : digitsValue (List.replicate n '0') = 0 := by
  induction n with
  | zero => rfl
  | succ n ih =>
    have h0 : digitsValue ['0'] = 0 := by decide
    rw [List.replicate_succ, ← List.singleton_append, digitsValue_append, ih, h0]
    simp

theorem length_digitsOfWidth (k s : Nat) : (digitsOfWidth k s).length = k := by
  induction k generalizing s with
  | zero => rfl
  | succ k ih => simp [digitsOfWidth, ih]

theorem isDigit_digitsOfWidth (k s : Nat) : ∀ c ∈ digitsOfWidth k s, isDigit c = true := by
  induction k generalizing s with
  | zero => simp [digitsOfWidth]
  | succ k ih =>
    intro c hc
    simp only [digitsOfWidth, List.mem_append, List.mem_singleton] at hc
    rcases hc with h | h
    · exact ih _ c h
    · rw [h]
      exact isDigit_digitChar _ (Nat.mod_lt _ (by norm_num))

theorem digitsValue_digitsOfWidth (k s : Nat) : digitsValue (digitsOfWidth k s) = s % 10 ^ k := by
  induction k generalizing s with
  | zero => simp [digitsOfWidth, digitsValue, Nat.mod_one]
  | succ k ih =>
    rw [digitsOfWidth, digitsValue_append, ih]
    have h1 : digitsValue [Nat.digitChar (s % 10)] = s % 10 := by
      unfold digitsValue
      simp [digitChar_toNat _ (Nat.mod_lt s (by norm_num : 0 < 10))]
    rw [h1]
    simp only [List.length_singleton, pow_one]
    rw [pow_succ, mul_comm (10 ^ k) 10, Nat.mod_mul]
    ring

theorem digitsValue_digitsOfWidth_of_lt (k s : Nat) (h : s < 10 ^ k) :
    digitsValue (digitsOfWidth k s) = s := by
  rw [digitsValue_digitsOfWidth, Nat.mod_eq_of_lt h]

theorem natDigits_ne_nil (n : Nat) : natDigits n ≠ [] := by
  intro h
  have := congrArg List.length h
  simp [natDigits, length_digitsOfWidth] at this

theorem isDigit_natDigits (n : Nat) : ∀ c ∈ natDigits n, isDigit c = true :=
  isDigit_digitsOfWidth _ _

theorem digitsValue_natDigits (n : Nat) : digitsValue (natDigits n) = n := by
  unfold natDigits
  apply digitsValue_digitsOfWidth_of_lt
  rw [natLog10_eq]
  exact Nat.lt_pow_succ_log_self (by norm_num) n

theorem all_isDigit_iff (l : List Char) : l.all isDigit = true ↔ ∀ c ∈ l, isDigit c = true := by
  simp [List.all_eq_true]

/-! ## Parsing a decimal text -/

theorem takeWhile_digits (ip rest : List Char) (hip : ∀ c ∈ ip, isDigit c = true)
    (hrest : ∀ c t, rest = c :: t → isDigit c = false) :
    (ip ++ rest).takeWhile isDigit = ip ∧ (ip ++ rest).dropWhile isDigit = rest := by
  constructor
  · rw [List.takeWhile_append_of_pos hip]
    cases rest with
    | nil => simp
    | cons c t => simp [List.takeWhile, hrest c t rfl]
  · rw [List.dropWhile_append_of_pos hip]
    cases rest with
    | nil => simp
    | cons c t => simp [List.dropWhile, hrest c t rfl]

theorem parseExponent_of_text (ex : List Char) (E : Int) (h : IsExponentText ex E) :
    parseExponent ex = some E := by
  rcases h with ⟨rfl, rfl⟩ | ⟨es, hne, hd, ⟨rfl, rfl⟩ | ⟨rfl, rfl⟩⟩
  · rfl
  · have hall : es.all isDigit = true := (all_isDigit_iff es).mpr hd
    simp [parseExponent, hne, hall]
  · have hall : es.all isDigit = true := (all_isDigit_iff es).mpr hd
    simp [parseExponent, hne, hall]

theorem exponentText_head (ex : List Char) (E : Int) (h : IsExponentText ex E) :
    ∀ c t, ex = c :: t → c = 'e' := by
  intro c t hc
  rcases h with ⟨rfl, _⟩ | ⟨es, _, _, ⟨rfl, _⟩ | ⟨rfl, _⟩⟩
  · cases hc
  · injection hc with h1 _
    exact h1.symm
  · injection hc with h1 _
    exact h1.symm

theorem parse_integer_text (ip ex : List Char) (E : Int) (hne : ip ≠ [])
    (hip : ∀ c ∈ ip, isDigit c = true) (hex : IsExponentText ex E) :
    parseUnsignedDecimal (ip ++ ex) = some ((digitsValue ip : ℚ) * pow10 E) := by
  have hhead := exponentText_head ex E hex
  have hsplit := takeWhile_digits ip ex hip (by
    intro c t hc
    rw [hhead c t hc]
    rfl)
  have hpe := parseExponent_of_text ex E hex
  unfold parseUnsignedDecimal
  simp only [hsplit.1, hsplit.2]
  split
  · rename_i t
    exact absurd (hhead '.' t rfl) (by decide)
  · rw [if_neg hne, hpe]
    rfl

theorem parse_fraction_text (ip fp ex : List Char) (E : Int)
    (hne : ¬ (ip = [] ∧ fp = []))
    (hip : ∀ c ∈ ip, isDigit c = true) (hfp : ∀ c ∈ fp, isDigit c = true)
    (hex : IsExponentText ex E) :
    parseUnsignedDecimal (ip ++ '.' :: (fp ++ ex)) =
      some ((digitsValue (ip ++ fp) : ℚ) * pow10 (E - (fp.length : Int))) := by
  have hhead := exponentText_head ex E hex
  have hsplit1 := takeWhile_digits ip ('.' :: (fp ++ ex)) hip (by
    intro c t hc
    injection hc with h1 _
    rw [← h1]
    rfl)
  have hsplit2 := takeWhile_digits fp ex hfp (by
    intro c t hc
    rw [hhead c t hc]
    rfl)
  unfold parseUnsignedDecimal
  simp only [hsplit1.1, hsplit1.2, hsplit2.1, hsplit2.2]
  rw [if_neg hne, parseExponent_of_text ex E hex]
  rfl

theorem exponentText_format (e : Int) :
    IsExponentText ('e' :: (if e < 0 then '-' else '+') :: natDigits e.natAbs) e := by
  right
  refine ⟨natDigits e.natAbs, natDigits_ne_nil _, isDigit_natDigits _, ?_⟩
  rw [digitsValue_natDigits]
  split_ifs with h
  · right
    exact ⟨rfl, by omega⟩
  · left
    exact ⟨rfl, by omega⟩

/-- Parsing the text of a decimal gives back its exact value. -/
theorem parse_formatDecimal (s k : Nat) (n : Int) (hk : 1 ≤ k) (hs : s < 10 ^ k) :
    parseUnsignedDecimal (formatDecimal s n k) = some ((s : ℚ) * pow10 (n - (k : Int))) := by
  have hlen : (digitsOfWidth k s).length = k := length_digitsOfWidth k s
  have hd : ∀ c ∈ digitsOfWidth k s, isDigit c = true := isDigit_digitsOfWidth k s
  have hv : digitsValue (digitsOfWidth k s) = s := digitsValue_digitsOfWidth_of_lt k s hs
  have hne : digitsOfWidth k s ≠ [] := by
    intro h
    rw [h] at hlen
    simp at hlen
    omega
  have hex := exponentText_format (n - 1)
  unfold formatDecimal
  simp only
  generalize 'e' :: (if n - 1 < 0 then '-' else '+') :: natDigits (n - 1).natAbs = ex at hex ⊢
  split_ifs with h1 h2 h3 h4
  · -- digits followed by zeros
    have hz : ∀ c ∈ digitsOfWidth k s ++ List.replicate (n.toNat - k) '0', isDigit c = true := by
      intro c hc
      rcases List.mem_append.mp hc with h | h
      · exact hd c h
      · rw [(List.mem_replicate.mp h).2]
        rfl
    have := parse_integer_text (digitsOfWidth k s ++ List.replicate (n.toNat - k) '0') [] 0
      (by simp [hne]) hz (Or.inl ⟨rfl, rfl⟩)
    rw [List.append_nil] at this
    rw [this, digitsValue_append, hv, digitsValue_zeros, List.length_replicate]
    congr 1
    have h5 : n - (k : Int) = ((n.toNat - k : Nat) : Int) := by omega
    rw [h5, pow10_natCast]
    have h0 : pow10 0 = 1 := by
      rw [pow10_eq]
      simp
    rw [h0]
    push_cast
    ring
  · -- decimal point inside the digits
    have hm : n.toNat < k := by omega
    have := parse_fraction_text ((digitsOfWidth k s).take n.toNat)
      ((digitsOfWidth k s).drop n.toNat) [] 0
      (by
        intro hc
        have := congrArg List.length hc.2
        simp [hlen] at this
        omega)
      (fun c hc => hd c (List.mem_of_mem_take hc))
      (fun c hc => hd c (List.mem_of_mem_drop hc))
      (Or.inl ⟨rfl, rfl⟩)
    rw [List.append_nil] at this
    rw [this, List.take_append_drop, hv, List.length_drop, hlen]
    have e : (0 : Int) - ((k - n.toNat : Nat) : Int) = n - (k : Int) := by omega
    rw [e]
  · -- zeros after the decimal point
    have hz : ∀ c ∈ List.replicate (-n).toNat '0' ++ digitsOfWidth k s, isDigit c = true := by
      intro c hc
      rcases List.mem_append.mp hc with h | h
      · rw [(List.mem_replicate.mp h).2]
        rfl
      · exact hd c h
    have := parse_fraction_text ['0'] (List.replicate (-n).toNat '0' ++ digitsOfWidth k s) [] 0
      (by simp) (by
        intro c hc
        rw [List.mem_singleton.mp hc]
        rfl) hz (Or.inl ⟨rfl, rfl⟩)
    rw [List.append_nil] at this
    have htext : '0' :: '.' :: (List.replicate (-n).toNat '0' ++ digitsOfWidth k s) =
        ['0'] ++ '.' :: (List.replicate (-n).toNat '0' ++ digitsOfWidth k s) := rfl
    rw [htext, this, digitsValue_append, digitsValue_append, digitsValue_zeros, hv]
    have h0 : digitsValue ['0'] = 0 := by decide
    rw [h0, List.length_append, List.length_replicate, hlen]
    have e : (0 : Int) - (((-n).toNat + k : Nat) : Int) = n - (k : Int) := by omega
    rw [e]
    simp
  · -- one digit and an exponent
    subst h4
    have := parse_integer_text (digitsOfWidth 1 s) ex (n - 1) hne hd hex
    rw [this, hv]
    rfl
  · -- several digits and an exponent
    have := parse_fraction_text ((digitsOfWidth k s).take 1) ((digitsOfWidth k s).drop 1) ex
      (n - 1)
      (by
        intro hc
        have := congrArg List.length hc.1
        simp [hlen] at this
        omega)
      (fun c hc => hd c (List.mem_of_mem_take hc))
      (fun c hc => hd c (List.mem_of_mem_drop hc))
      hex
    rw [this, List.take_append_drop, hv, List.length_drop, hlen]
    have e : n - 1 - ((k - 1 : Nat) : Int) = n - (k : Int) := by omega
    rw [e]

/-! ## `Number` on a decimal text -/

theorem parseExponent_chars (r : List Char) (E : Int) (h : parseExponent r = some E) :
    ∀ c ∈ r, isWhiteSpace c = false := by
  cases r with
  | nil => simp
  | cons c0 rest =>
    simp only [parseExponent] at h
    split_ifs at h with h0
    have hc0 : isWhiteSpace c0 = false := by
      rcases h0 with rfl | rfl <;> decide
    split at h
    · rename_i ds
      split_ifs at h with h1
      intro c hc
      simp only [List.mem_cons] at hc
      rcases hc with rfl | rfl | hc
      · exact hc0
      · decide
      · exact isWhiteSpace_of_isDigit c ((all_isDigit_iff ds).mp h1.2 c hc)
    · rename_i ds
      split_ifs at h with h1
      intro c hc
      simp only [List.mem_cons] at hc
      rcases hc with rfl | rfl | hc
      · exact hc0
      · decide
      · exact isWhiteSpace_of_isDigit c ((all_isDigit_iff ds).mp h1.2 c hc)
    · split_ifs at h with h1
      intro c hc
      simp only [List.mem_cons] at hc
      rcases hc with rfl | hc
      · exact hc0
      · exact isWhiteSpace_of_isDigit c ((all_isDigit_iff rest).mp h1.2 c hc)

theorem parse_chars (l : List Char) (q : ℚ) (h : parseUnsignedDecimal l = some q) :
    ∀ c ∈ l, isWhiteSpace c = false := by
  have hl : l = l.takeWhile isDigit ++ l.dropWhile isDigit :=
    (List.takeWhile_append_dropWhile isDigit l).symm
  have hip : ∀ c ∈ l.takeWhile isDigit, isWhiteSpace c = false :=
    fun c hc => isWhiteSpace_of_isDigit c (List.mem_takeWhile_imp hc)
  have hr : ∀ c ∈ l.dropWhile isDigit, isWhiteSpace c = false := by
    unfold parseUnsignedDecimal at h
    simp only at h
    split at h
    · rename_i t heq
      split_ifs at h with h1
      obtain ⟨E, hE, _⟩ := Option.map_eq_some'.mp h
      have ht : t = t.takeWhile isDigit ++ t.dropWhile isDigit :=
        (List.takeWhile_append_dropWhile isDigit t).symm
      intro c hc
      rw [heq] at hc
      rcases List.mem_cons.mp hc with rfl | hc
      · decide
      · rw [ht] at hc
        rcases List.mem_append.mp hc with h2 | h2
        · exact isWhiteSpace_of_isDigit c (List.mem_takeWhile_imp h2)
        · exact parseExponent_chars _ E hE c h2
    · split_ifs at h with h1
      obtain ⟨E, hE, _⟩ := Option.map_eq_some'.mp h
      exact parseExponent_chars _ E hE
  intro c hc
  rw [hl] at hc
  rcases List.mem_append.mp hc with h1 | h1
  · exact hip c h1
  · exact hr c h1

theorem trimChars_of_no_whiteSpace (l : List Char) (h : ∀ c ∈ l, isWhiteSpace c = false) :
    trimChars l = l := by
  apply trimChars_of_trimmed
  intro hne
  exact ⟨h _ (List.head_mem hne), h _ (List.getLast_mem hne)⟩

theorem parse_nil : parseUnsignedDecimal [] = none := rfl

theorem parse_radix_marker (c : Char) (ds : List Char) (hd : isDigit c = false)
    (hdot : c ≠ '.') (he : c ≠ 'e') (hE : c ≠ 'E') :
    parseUnsignedDecimal ('0' :: c :: ds) = none := by
  have h0 : isDigit '0' = true := rfl
  unfold parseUnsignedDecimal
  simp only [List.takeWhile, List.dropWhile, h0, hd]
  split
  · rename_i t heq
    injection heq with h1 _
    exact absurd h1 hdot
  · simp [parseExponent, he, hE]

theorem parse_head (l : List Char) (q : ℚ) (h : parseUnsignedDecimal l = some q) :
    ∃ c t, l = c :: t ∧ (isDigit c = true ∨ c = '.') := by
  cases l with
  | nil => exact absurd h (by simp [parse_nil])
  | cons c t =>
    refine ⟨c, t, rfl, ?_⟩
    by_cases hd : isDigit c = true
    · exact Or.inl hd
    · right
      have hd2 : isDigit c = false := by simpa using hd
      unfold parseUnsignedDecimal at h
      simp only [List.takeWhile, List.dropWhile, hd2] at h
      split at h
      · rename_i t2 heq
        injection heq with h1 _
      · simp at h

/-- A text accepted as an unsigned decimal literal is converted by `Number` to
the rounding of its value. -/
theorem Number_of_parse (l : List Char) (q : ℚ) (h : parseUnsignedDecimal l = some q) :
    Number ⟨l⟩ = roundDouble q := by
  have htrim : trimChars l = l := trimChars_of_no_whiteSpace l (parse_chars l q h)
  obtain ⟨c, t, hl, hc⟩ := parse_head l q h
  have hdec : parseDecimal l = roundDouble q := by
    have hinf : l ≠ "Infinity".data := by
      intro hI
      have hp : parseUnsignedDecimal "Infinity".data = none := by decide
      rw [hI, hp] at h
      exact absurd h (by simp)
    unfold parseDecimal
    simp only
    split
    · rename_i u
      injection hl with h1 _
      rcases hc with hc | hc
      · rw [← h1] at hc
        exact absurd hc (by decide)
      · rw [← h1] at hc
        exact absurd hc (by decide)
    · rename_i u
      injection hl with h1 _
      rcases hc with hc | hc
      · rw [← h1] at hc
        exact absurd hc (by decide)
      · rw [← h1] at hc
        exact absurd hc (by decide)
    · rw [if_neg hinf, h]
      simp
  unfold Number
  simp only [htrim]
  split
  · exact absurd h (by simp [parse_nil])
  · rename_i ds
    exact absurd h (by rw [parse_radix_marker 'x' ds rfl (by decide) (by decide) (by decide)]; simp)
  · rename_i ds
    exact absurd h (by rw [parse_radix_marker 'X' ds rfl (by decide) (by decide) (by decide)]; simp)
  · rename_i ds
    exact absurd h (by rw [parse_radix_marker 'o' ds rfl (by decide) (by decide) (by decide)]; simp)
  · rename_i ds
    exact absurd h (by rw [parse_radix_marker 'O' ds rfl (by decide) (by decide) (by decide)]; simp)
  · rename_i ds
    exact absurd h (by rw [parse_radix_marker 'b' ds rfl (by decide) (by decide) (by decide)]; simp)
  · rename_i ds
    exact absurd h (by rw [parse_radix_marker 'B' ds rfl (by decide) (by decide) (by decide)]; simp)
  · exact hdec

/-! ## Round trip of numbers through their text -/

/-- Converting a positive binary64 value to text and back gives the value. -/
theorem Number_positiveToString (x : ℚ) (hx : 0 < x) (hb : IsBinary64 x) :
    Number ⟨positiveToString x⟩ = JSNumber.fin x := by
  obtain ⟨hk, _, hhi, hr⟩ := shortestDecimal_valid x hx hb
  unfold positiveToString
  rw [Number_of_parse _ _ (parse_formatDecimal _ _ _ hk hhi)]
  exact hr

theorem isBinary64_zero : IsBinary64 0 :=
  isBinary64_of_roundDouble 0 0 roundDouble_zero

theorem parseDecimal_isBinary64 (l : List Char) (x : ℚ) (h : parseDecimal l = JSNumber.fin x) :
    IsBinary64 x := by
  unfold parseDecimal at h
  simp only at h
  split at h <;> split_ifs at h <;>
    first
    | exact absurd h (by simp)
    | (split at h <;>
        first
        | exact isBinary64_of_roundDouble _ _ h
        | exact absurd h (by simp))

theorem Number_isBinary64 (s : String) (x : ℚ) (h : Number s = JSNumber.fin x) :
    IsBinary64 x := by
  unfold Number at h
  simp only at h
  split at h
  · injection h with h
    rw [← h]
    exact isBinary64_zero
  all_goals first
    | exact parseDecimal_isBinary64 _ _ h
    | (split at h
       · exact isBinary64_of_roundDouble _ _ h
       · exact absurd h (by simp))

theorem toString_of_pos (x : ℚ) (hx : 0 < x) :
    (JSNumber.fin x).toString = ⟨positiveToString x⟩ := by
  simp only [JSNumber.toString]
  rw [if_neg hx.ne', if_neg (not_lt.mpr hx.le)]

/-- The generated `videos_per_day` survives being written to the form and read
back. -/
theorem videos_per_day_roundtrip (n : JSNumber)
    (hn : ∀ x, n = JSNumber.fin x → IsBinary64 x) :
    JSNumber.max (JSNumber.fin 1)
      ((Number (JSNumber.max (JSNumber.fin 1) (n.orElse (JSNumber.fin 4))).toString).orElse
        (JSNumber.fin 4)) =
      JSNumber.max (JSNumber.fin 1) (n.orElse (JSNumber.fin 4)) := by
  rw [clamp_cases n]
  split_ifs with h1 h2
  · decide!
  · decide!
  · cases n with
    | nan => exact absurd (Or.inl rfl) h1
    | negInf => exact absurd rfl h2
    | posInf => decide!
    | fin x =>
      have hx1 : 1 ≤ x := by
        simp only [JSNumber.lt, decide_eq_true_eq, not_lt] at h2
        exact h2
      have hx0 : 0 < x := lt_of_lt_of_le one_pos hx1
      rw [toString_of_pos x hx0, Number_positiveToString x hx0 (hn x rfl), clamp_cases]
      rw [if_neg h1, if_neg h2]

theorem config_ext (a b : Config)
    (h1 : a.trending_region = b.trending_region)
    (h2 : a.videos_per_day = b.videos_per_day)
    (h3 : a.output_dir = b.output_dir)
    (h4 : a.assets_dir = b.assets_dir)
    (h5 : a.youtube_category_id = b.youtube_category_id)
    (h6 : a.tags = b.tags)
    (h7 : a.video_title_template = b.video_title_template)
    (h8 : a.video_description_template = b.video_description_template)
    (h9 : a.youtube_privacy_status = b.youtube_privacy_status)
    (h10 : a.youtube_client_secrets_file = b.youtube_client_secrets_file)
    (h11 : a.youtube_token_file = b.youtube_token_file)
    (h12 : a.background_music_file = b.background_music_file) : a = b := by
  cases a
  cases b
  simp only [Config.mk.injEq]
  exact ⟨h1, h2, h3, h4, h5, h6, h7, h8, h9, h10, h11, h12⟩

theorem roundtrip_trending_region (f : FormState) :
    (generateConfig (populateForm (generateConfig f))).trending_region =
      (generateConfig f).trending_region :=
  roundtrip_trimmed_field f.trending_region "united_states" (by decide) (by decide)

theorem roundtrip_output_dir (f : FormState) :
    (generateConfig (populateForm (generateConfig f))).output_dir =
      (generateConfig f).output_dir := by
  have h1 : ∀ g : FormState, (generateConfig g).output_dir = orElse (normalisePath g.output_dir) "output" :=
    fun _ => rfl
  have h2 : (populateForm (generateConfig f)).output_dir = (generateConfig f).output_dir := rfl
  rw [h1 (populateForm (generateConfig f)), h2, h1 f]
  exact roundtrip_path_field f.output_dir "output" (by decide) (by decide)

theorem roundtrip_assets_dir (f : FormState) :
    (generateConfig (populateForm (generateConfig f))).assets_dir =
      (generateConfig f).assets_dir := by
  have h1 : ∀ g : FormState, (generateConfig g).assets_dir = orElse (normalisePath g.assets_dir) "assets" :=
    fun _ => rfl
  have h2 : (populateForm (generateConfig f)).assets_dir = (generateConfig f).assets_dir := rfl
  rw [h1 (populateForm (generateConfig f)), h2, h1 f]
  exact roundtrip_path_field f.assets_dir "assets" (by decide) (by decide)

theorem roundtrip_category_id (f : FormState) :
    (generateConfig (populateForm (generateConfig f))).youtube_category_id =
      (generateConfig f).youtube_category_id :=
  roundtrip_trimmed_field f.youtube_category_id "23" (by decide) (by decide)

theorem roundtrip_tags (f : FormState) :
    (generateConfig (populateForm (generateConfig f))).tags = (generateConfig f).tags := by
  have h1 : ∀ g : FormState, (generateConfig g).tags =
      if (((split g.tags).map trim).filter (fun tag => tag ≠ "")).length ≠ 0 then
        ((split g.tags).map trim).filter (fun tag => tag ≠ "")
      else defaultConfig.tags := fun _ => rfl
  have h2 : (populateForm (generateConfig f)).tags = join ", " (generateConfig f).tags := rfl
  rw [h1 (populateForm (generateConfig f)), h2, generated_tags_roundtrip f, if_pos]
  intro h
  exact (generated_tags_facts f).2 (List.length_eq_zero.mp h)

theorem roundtrip_title_template (f : FormState) :
    (generateConfig (populateForm (generateConfig f))).video_title_template =
      (generateConfig f).video_title_template :=
  roundtrip_trimmed_field f.video_title_template
    defaultConfig.video_title_template (by decide) (by decide)

theorem roundtrip_description_template (f : FormState) :
    (generateConfig (populateForm (generateConfig f))).video_description_template =
      (generateConfig f).video_description_template :=
  roundtrip_trimmed_field f.video_description_template
    defaultConfig.video_description_template (by decide) (by decide)

theorem roundtrip_privacy_status (f : FormState) :
    (generateConfig (populateForm (generateConfig f))).youtube_privacy_status =
      (generateConfig f).youtube_privacy_status :=
  roundtrip_status_field f.youtube_privacy_status "private" (by decide)

theorem roundtrip_client_secrets_file (f : FormState) :
    (generateConfig (populateForm (generateConfig f))).youtube_client_secrets_file =
      (generateConfig f).youtube_client_secrets_file := by
  have h1 : ∀ g : FormState, (generateConfig g).youtube_client_secrets_file = orElse (normalisePath g.youtube_client_secrets_file) "credentials/client_secret.json" :=
    fun _ => rfl
  have h2 : (populateForm (generateConfig f)).youtube_client_secrets_file = (generateConfig f).youtube_client_secrets_file := rfl
  rw [h1 (populateForm (generateConfig f)), h2, h1 f]
  exact roundtrip_path_field f.youtube_client_secrets_file "credentials/client_secret.json" (by decide) (by decide)

theorem roundtrip_token_file (f : FormState) :
    (generateConfig (populateForm (generateConfig f))).youtube_token_file =
      (generateConfig f).youtube_token_file := by
  have h1 : ∀ g : FormState, (generateConfig g).youtube_token_file = orElse (normalisePath g.youtube_token_file) "credentials/token.json" :=
    fun _ => rfl
  have h2 : (populateForm (generateConfig f)).youtube_token_file = (generateConfig f).youtube_token_file := rfl
  rw [h1 (populateForm (generateConfig f)), h2, h1 f]
  exact roundtrip_path_field f.youtube_token_file "credentials/token.json" (by decide) (by decide)

theorem roundtrip_background_music_file (f : FormState) :
    (generateConfig (populateForm (generateConfig f))).background_music_file =
      (generateConfig f).background_music_file :=
  roundtrip_music_field f.background_music_file

theorem generated_number_text (f : FormState) :
    Number (generateConfig f).videos_per_day.toString = (generateConfig f).videos_per_day := by
  rw [videos_per_day_eq, clamp_cases]
  split_ifs with h1 h2
  · decide!
  · decide!
  · cases hn : Number f.videos_per_day with
    | nan => exact absurd (Or.inl hn) h1
    | negInf =>
      rw [hn] at h2
      exact absurd rfl h2
    | posInf => decide!
    | fin x =>
      rw [hn] at h2
      have hx1 : 1 ≤ x := by
        simp only [JSNumber.lt, decide_eq_true_eq, not_lt] at h2
        exact h2
      have hx0 : 0 < x := lt_of_lt_of_le one_pos hx1
      rw [toString_of_pos x hx0]
      exact Number_positiveToString x hx0 (Number_isBinary64 _ x hn)

theorem roundtrip_videos_per_day (f : FormState) :
    (generateConfig (populateForm (generateConfig f))).videos_per_day =
      (generateConfig f).videos_per_day :=
  videos_per_day_roundtrip (Number f.videos_per_day) (fun x hx => Number_isBinary64 _ x hx)

/-- C10: a generated configuration is a fixed point of the form round trip:
writing `generateConfig(s)` into the form with `populateForm` (the number as
its text, the tags joined with a comma and a space, `null` shown as the empty
string) and generating again returns the same configuration in every field.
In particular `normalisePath` is idempotent, joining the generated tags and
splitting, trimming and filtering them again returns the same list, and the
text of the generated number converts back to that number. -/
theorem generateConfig_populateForm_fixed (f : FormState) (v : String) :
    generateConfig (populateForm (generateConfig f)) = generateConfig f ∧
    normalisePath (normalisePath v) = normalisePath v ∧
    ((split (join ", " (generateConfig f).tags)).map trim).filter (fun tag => tag ≠ "") =
      (generateConfig f).tags ∧
    Number (generateConfig f).videos_per_day.toString = (generateConfig f).videos_per_day :=
  ⟨config_ext _ _ (roundtrip_trending_region f) (roundtrip_videos_per_day f)
      (roundtrip_output_dir f) (roundtrip_assets_dir f) (roundtrip_category_id f)
      (roundtrip_tags f) (roundtrip_title_template f) (roundtrip_description_template f)
      (roundtrip_privacy_status f) (roundtrip_client_secrets_file f) (roundtrip_token_file f)
      (roundtrip_background_music_file f),
    normalisePath_idem v, generated_tags_roundtrip f, generated_number_text f⟩
end ChecklistApp
